import Mathlib

/-!
Mini Instagram backend: the in-memory record store and its REST handlers.

A shallow embedding of `backend/server.js`.  The global object `db` becomes a
value of type `Store` that every handler receives and returns; a handler is a
function from the store and the request data (the caller id put on the request
by `authenticateToken`, the path parameter after `parseInt`, the body fields)
to the new store and the response.

Conventions:
* JavaScript arrays are lists: `push` appends, `unshift` conses,
  `find` is `List.find?`, `findIndex` is `List.findIdx?` (`none` for `-1`),
  `splice(idx, 1)` is `List.eraseIdx`.
* `parseInt` gives an integer or `NaN`; a parsed path id is an `Option Int`
  with `none` for `NaN`, and `===` on such values is `strictEq`.
* ids are unbounded integers (the counter never comes near `2 ^ 53`).
* `bcrypt` digests, `jwt` tokens and `new Date()` strings are values the
  handlers only store or hand back; they enter as request data.
* Every handler but signup runs to its end in one turn of the event loop.  The
  signup handler is suspended at `await bcrypt.hash` between its email test and its
  push: `signupCheck` and `signupResume` are its two parts, `signup` is the handler
  when nothing runs during the suspension, and `Server` with `serve` lets other
  handlers, other signups included, run in between.
-/

namespace MiniInstagram

/-! ## Data model -/

/-- A number obtained from `parseInt`: `some n`, or `none` for `NaN`. -/
abbrev Num := Option Int

/-- The operator `===` on two numbers: `NaN` is equal to nothing, itself included. -/
def strictEq (a b : Num) : Bool :=
  match a, b with
  | some x, some y => x == y
  | _, _ => false

/-- A user record.  `username` is `none` when the signup body carried no username: the
handler stores the body field as it came. -/
structure User where
  id : Int
  username : Option String
  email : String
  password : String
  createdAt : Option String
deriving DecidableEq, Repr

structure Post where
  id : Int
  userId : Int
  imageUrl : String
  caption : String
  createdAt : String
deriving DecidableEq, Repr

structure Follow where
  id : Int
  followerId : Int
  followingId : Num
deriving DecidableEq, Repr

structure Like where
  id : Int
  userId : Int
  postId : Num
deriving DecidableEq, Repr

structure Comment where
  id : Int
  postId : Num
  userId : Int
  text : String
  createdAt : String
deriving DecidableEq, Repr

/-- The object `db`: five collections and the shared id counter. -/
structure Store where
  users : List User
  posts : List Post
  follows : List Follow
  likes : List Like
  comments : List Comment
  nextId : Int
deriving DecidableEq, Repr

/-- The literal `const db = ...` the module starts with. -/
def db : Store :=
  { users := [], posts := [], follows := [], likes := [], comments := [], nextId := 1 }

/-- Values `seedData` obtains from `bcrypt.hashSync` and from the clock. -/
structure SeedEnv where
  hash1 : String
  hash2 : String
  hash3 : String
  created101 : String
  created102 : String
  created103 : String
  created401 : String
deriving DecidableEq, Repr

/-- The function `seedData`, run once on the initial `db`. -/
def seedData (e : SeedEnv) (s : Store) : Store :=
  let users : List User :=
    [ { id := 1, username := "john_doe", email := "john@example.com",
        password := e.hash1, createdAt := none },
      { id := 2, username := "jane_smith", email := "jane@example.com",
        password := e.hash2, createdAt := none },
      { id := 3, username := "bob_wilson", email := "bob@example.com",
        password := e.hash3, createdAt := none } ]
  let s := { s with users := s.users ++ users }
  let s := { s with nextId := 4 }
  let posts : List Post :=
    [ { id := 101, userId := 2,
        imageUrl := "https://images.unsplash.com/photo-1506905925346-21bda4d32df4",
        caption := "Mountain adventure! 🏔️", createdAt := e.created101 },
      { id := 102, userId := 3,
        imageUrl := "https://images.unsplash.com/photo-1551963831-b3b1ca40c98e",
        caption := "Coffee time ☕", createdAt := e.created102 },
      { id := 103, userId := 2,
        imageUrl := "https://images.unsplash.com/photo-1469474968028-56623f02e42e",
        caption := "Nature walks 🌲", createdAt := e.created103 } ]
  let s := { s with posts := s.posts ++ posts }
  let follows : List Follow :=
    [ { id := 201, followerId := 1, followingId := some 2 },
      { id := 202, followerId := 1, followingId := some 3 } ]
  let s := { s with follows := s.follows ++ follows }
  let like : Like := { id := 301, userId := 1, postId := some 101 }
  let s := { s with likes := s.likes ++ [like] }
  let comment : Comment :=
    { id := 401, postId := some 101, userId := 1, text := "Amazing view!",
      createdAt := e.created401 }
  { s with comments := s.comments ++ [comment] }

/-- The store right after the module has run `seedData()`. -/
def seeded (e : SeedEnv) : Store := seedData e db

/-- A concrete choice of digests and timestamps, for evaluating examples. -/
def env0 : SeedEnv :=
  { hash1 := "$2a$10$h1", hash2 := "$2a$10$h2", hash3 := "$2a$10$h3",
    created101 := "2024-01-01T11:00:00.000Z", created102 := "2024-01-01T10:00:00.000Z",
    created103 := "2024-01-01T09:00:00.000Z", created401 := "2024-01-01T12:00:00.000Z" }

/-! ## Responses -/

/-- An error answer: `res.status(status).json(error: ...)`. -/
structure Err where
  status : Nat
  error : String
deriving DecidableEq, Repr

/-- The message of the `TypeError` raised by `user.id` when `user` is `undefined`. -/
def undefinedId : String := "Cannot read properties of undefined (reading \x27id\x27)"

/-- The summary `id, username, email` of a user. -/
structure UserSummary where
  id : Int
  username : Option String
  email : String
deriving DecidableEq, Repr

/-- The summary `id, username` nested in a comment. -/
structure CommentAuthor where
  id : Int
  username : Option String
deriving DecidableEq, Repr

/-- A comment spread into a new object with its `user` summary. -/
structure FeedComment extends Comment where
  user : CommentAuthor
deriving DecidableEq, Repr

/-- A post spread into a new object with the feed annotations. -/
structure FeedPost extends Post where
  user : UserSummary
  likesCount : Nat
  isLiked : Bool
  comments : List FeedComment
deriving DecidableEq, Repr

/-- A post spread into a new object with the lighter annotations of the user-posts view. -/
structure LightPost extends Post where
  likesCount : Nat
  isLiked : Bool
  commentsCount : Nat
deriving DecidableEq, Repr

/-- The body of a successful signup or login; the token carries the user id. -/
structure AuthBody where
  token : Int
  user : UserSummary
deriving DecidableEq, Repr

structure Profile where
  id : Int
  username : Option String
  email : String
  followers : Nat
  following : Nat
  posts : Nat
  isFollowing : Bool
  isOwnProfile : Bool
deriving DecidableEq, Repr

/-! ## Handlers -/

/-- Array `map` with a callback that may throw: the first exception aborts the map. -/
def mapThrow {α β : Type} (f : α → Except String β) : List α → Except String (List β)
  | [] => .ok []
  | x :: xs =>
    match f x with
    | .error m => .error m
    | .ok y =>
      match mapThrow f xs with
      | .error m => .error m
      | .ok ys => .ok (y :: ys)

/-- The signup handler up to `await bcrypt.hash`: the duplicate-email test.  `some e` is
the error it answers with; `none` means the handler is suspended at the `await`. -/
def signupCheck (s : Store) (email : String) : Option Err :=
  if (s.users.find? (fun u => u.email == email)).isSome then
    some ⟨400, "Email already exists"⟩
  else
    none

/-- The signup handler from the `await` on, run on the store as it is when `bcrypt.hash`
settles; `hashed` is the outcome of `bcrypt.hash`.  The email is not tested again. -/
def signupResume (s : Store) (username : Option String) (email : String)
    (hashed : Except String String) (now : String) : Store × Except Err AuthBody :=
  match hashed with
  | .error m => (s, .error ⟨500, m⟩)
  | .ok hashedPassword =>
    let user : User :=
      { id := s.nextId, username := username, email := email,
        password := hashedPassword, createdAt := some now }
    let s := { s with nextId := s.nextId + 1 }
    let s := { s with users := s.users ++ [user] }
    (s, .ok { token := user.id,
              user := { id := user.id, username := user.username, email := user.email } })

/-- The handler of `POST /api/auth/signup` when no other handler runs while it is
suspended at the `await`: the test, then the continuation on the same store. -/
def signup (s : Store) (username : Option String) (email : String)
    (hashed : Except String String) (now : String) : Store × Except Err AuthBody :=
  match signupCheck s email with
  | some e => (s, .error e)
  | none => signupResume s username email hashed now

/-- The handler of `POST /api/auth/login`; `compare` is `bcrypt.compare` on the stored digest. -/
def login (s : Store) (email : String) (compare : String → Bool) : Except Err AuthBody :=
  match s.users.find? (fun u => u.email == email) with
  | none => .error ⟨400, "Invalid credentials"⟩
  | some user =>
    if !compare user.password then .error ⟨400, "Invalid credentials"⟩
    else .ok { token := user.id,
               user := { id := user.id, username := user.username, email := user.email } }

/-- The handler of `POST /api/posts`. -/
def createPost (s : Store) (userId : Int) (imageUrl caption now : String) :
    Store × Except Err Post :=
  let post : Post :=
    { id := s.nextId, userId := userId, imageUrl := imageUrl, caption := caption,
      createdAt := now }
  let s := { s with nextId := s.nextId + 1 }
  let s := { s with posts := post :: s.posts }
  (s, .ok post)

/-- The callback of `feedPosts.map` in the feed handler. -/
def enrich (s : Store) (userId : Int) (post : Post) : Except String FeedPost :=
  let user := s.users.find? (fun u => u.id == post.userId)
  let likes := s.likes.filter (fun l => strictEq l.postId (some post.id))
  let comments := (s.comments.filter (fun c => strictEq c.postId (some post.id))).map
    (fun c => (c, s.users.find? (fun u => u.id == c.userId)))
  match user with
  | none => .error undefinedId
  | some user =>
    match mapThrow (fun (c : Comment × Option User) =>
        match c.2 with
        | none => .error undefinedId
        | some cu => .ok ({ toComment := c.1, user := { id := cu.id, username := cu.username } }
                            : FeedComment)) comments with
    | .error m => .error m
    | .ok cs =>
      .ok { toPost := post,
            user := { id := user.id, username := user.username, email := user.email },
            likesCount := likes.length,
            isLiked := likes.any (fun l => l.userId == userId),
            comments := cs }

/-- The handler of `GET /api/posts/feed`. -/
def feed (s : Store) (userId : Int) : Except Err (List FeedPost) :=
  let following : List Num :=
    ((s.follows.filter (fun f => f.followerId == userId)).map (fun f => f.followingId))
      ++ [some userId]
  let feedPosts := s.posts.filter (fun p => following.contains (some p.userId))
  match mapThrow (enrich s userId) feedPosts with
  | .error m => .error ⟨500, m⟩
  | .ok enrichedPosts => .ok enrichedPosts

/-- The handler of `GET /api/posts/user/:userId`. -/
def userPosts (s : Store) (userId : Int) (targetUserId : Num) : Except Err (List LightPost) :=
  let posts := s.posts.filter (fun p => strictEq (some p.userId) targetUserId)
  .ok (posts.map (fun post =>
    let likes := s.likes.filter (fun l => strictEq l.postId (some post.id))
    let comments := s.comments.filter (fun c => strictEq c.postId (some post.id))
    { toPost := post, likesCount := likes.length,
      isLiked := likes.any (fun l => l.userId == userId),
      commentsCount := comments.length }))

/-- The handler of `POST /api/posts/:postId/like`. -/
def like (s : Store) (userId : Int) (postId : Num) : Store × Except Err Unit :=
  let existing := s.likes.find? (fun l => l.userId == userId && strictEq l.postId postId)
  if existing.isSome then
    (s, .error ⟨400, "Already liked"⟩)
  else
    let l : Like := { id := s.nextId, userId := userId, postId := postId }
    let s := { s with nextId := s.nextId + 1 }
    ({ s with likes := s.likes ++ [l] }, .ok ())

/-- The handler of `DELETE /api/posts/:postId/like`. -/
def unlike (s : Store) (userId : Int) (postId : Num) : Store × Except Err Unit :=
  match s.likes.findIdx? (fun l => l.userId == userId && strictEq l.postId postId) with
  | none => (s, .error ⟨400, "Not liked"⟩)
  | some idx => ({ s with likes := s.likes.eraseIdx idx }, .ok ())

/-- The handler of `POST /api/posts/:postId/comments`: the comment is stored before the
author lookup, so a caller id without a user record answers 500 after the append. -/
def addComment (s : Store) (userId : Int) (postId : Num) (text now : String) :
    Store × Except Err FeedComment :=
  let comment : Comment :=
    { id := s.nextId, postId := postId, userId := userId, text := text, createdAt := now }
  let s := { s with nextId := s.nextId + 1 }
  let s := { s with comments := s.comments ++ [comment] }
  match s.users.find? (fun u => u.id == userId) with
  | none => (s, .error ⟨500, undefinedId⟩)
  | some user =>
    (s, .ok { toComment := comment, user := { id := user.id, username := user.username } })

/-- The handler of `POST /api/users/:userId/follow`. -/
def follow (s : Store) (userId : Int) (targetUserId : Num) : Store × Except Err Unit :=
  if strictEq (some userId) targetUserId then
    (s, .error ⟨400, "Cannot follow yourself"⟩)
  else
    let existing := s.follows.find?
      (fun f => f.followerId == userId && strictEq f.followingId targetUserId)
    if existing.isSome then
      (s, .error ⟨400, "Already following"⟩)
    else
      let f : Follow := { id := s.nextId, followerId := userId, followingId := targetUserId }
      let s := { s with nextId := s.nextId + 1 }
      ({ s with follows := s.follows ++ [f] }, .ok ())

/-- The handler of `DELETE /api/users/:userId/follow`. -/
def unfollow (s : Store) (userId : Int) (targetUserId : Num) : Store × Except Err Unit :=
  match s.follows.findIdx?
      (fun f => f.followerId == userId && strictEq f.followingId targetUserId) with
  | none => (s, .error ⟨400, "Not following"⟩)
  | some idx => ({ s with follows := s.follows.eraseIdx idx }, .ok ())

/-- The handler of `GET /api/users/:userId`. -/
def profile (s : Store) (userId : Int) (targetUserId : Num) : Except Err Profile :=
  match s.users.find? (fun u => strictEq (some u.id) targetUserId) with
  | none => .error ⟨404, "User not found"⟩
  | some user =>
    let followers := (s.follows.filter (fun f => strictEq f.followingId targetUserId)).length
    let following :=
      (s.follows.filter (fun f => strictEq (some f.followerId) targetUserId)).length
    let isFollowing :=
      s.follows.any (fun f => f.followerId == userId && strictEq f.followingId targetUserId)
    let posts := (s.posts.filter (fun p => strictEq (some p.userId) targetUserId)).length
    .ok { id := user.id, username := user.username, email := user.email,
          followers := followers, following := following, posts := posts,
          isFollowing := isFollowing,
          isOwnProfile := strictEq (some userId) targetUserId }

/-! ## Requests and reachable stores -/

/-- A request that passed `authenticateToken` (or needs no token), with the data its
handler reads.  The read-only routes are listed with the data that selects them; `signup`
is a signup during whose suspension no other handler runs. -/
inductive Request where
  | signup (username : Option String) (email : String) (hashed : Except String String)
      (now : String)
  | login (email : String)
  | createPost (userId : Int) (imageUrl caption now : String)
  | feed (userId : Int)
  | userPosts (userId : Int) (targetUserId : Num)
  | like (userId : Int) (postId : Num)
  | unlike (userId : Int) (postId : Num)
  | addComment (userId : Int) (postId : Num) (text now : String)
  | follow (userId : Int) (targetUserId : Num)
  | unfollow (userId : Int) (targetUserId : Num)
  | profile (userId : Int) (targetUserId : Num)
  | search (userId : Int) (query : String)

/-- The store after a handler has run; the `GET` routes and login assign nothing. -/
def step (s : Store) : Request → Store
  | .signup username email hashed now => (signup s username email hashed now).1
  | .login _ => s
  | .createPost userId imageUrl caption now => (createPost s userId imageUrl caption now).1
  | .feed _ => s
  | .userPosts _ _ => s
  | .like userId postId => (like s userId postId).1
  | .unlike userId postId => (unlike s userId postId).1
  | .addComment userId postId text now => (addComment s userId postId text now).1
  | .follow userId targetUserId => (follow s userId targetUserId).1
  | .unfollow userId targetUserId => (unfollow s userId targetUserId).1
  | .profile _ _ => s
  | .search _ _ => s

/-- The path parameter of the request, when its route has a numeric one. -/
def Request.pathId : Request → Option Num
  | .userPosts _ t => some t
  | .like _ p => some p
  | .unlike _ p => some p
  | .addComment _ p _ _ => some p
  | .follow _ t => some t
  | .unfollow _ t => some t
  | .profile _ t => some t
  | _ => none

/-- The path id of the request, if any, parsed to an integer (not `NaN`). -/
def Request.integerPath (r : Request) : Prop :=
  r.pathId ≠ some none

/-- The authenticated caller of the request, when its route is behind `authenticateToken`. -/
def Request.caller : Request → Option Int
  | .signup _ _ _ _ => none
  | .login _ => none
  | .createPost u _ _ _ => some u
  | .feed u => some u
  | .userPosts u _ => some u
  | .like u _ => some u
  | .unlike u _ => some u
  | .addComment u _ _ _ => some u
  | .follow u _ => some u
  | .unfollow u _ => some u
  | .profile u _ => some u
  | .search u _ => some u

/-- The caller of the request, if any, is the id of a user in the store. -/
def Request.callerExists (s : Store) (r : Request) : Prop :=
  ∀ u, r.caller = some u → ∃ x ∈ s.users, x.id = u

/-- Stores reachable from a seeded store by handler calls that satisfy `ok`. -/
inductive ReachableVia (ok : Store → Request → Prop) : Store → Prop where
  | seed (e : SeedEnv) : ReachableVia ok (seeded e)
  | call {s : Store} (r : Request) : ReachableVia ok s → ok s r → ReachableVia ok (step s r)

/-- Stores reachable from a seeded store by any handler calls. -/
def Reachable (s : Store) : Prop := ReachableVia (fun _ _ => True) s

/-- Every post and every comment was written by a user of the store. -/
def AuthorsExist (s : Store) : Prop :=
  (∀ p ∈ s.posts, ∃ u ∈ s.users, u.id = p.userId) ∧
  (∀ c ∈ s.comments, ∃ u ∈ s.users, u.id = c.userId)

/-- The feed condition in the words of the specification: the author is the viewer or
somebody the viewer follows. -/
def InFeedOf (s : Store) (viewer : Int) (p : Post) : Prop :=
  p.userId = viewer ∨ ∃ f ∈ s.follows, f.followerId = viewer ∧ f.followingId = some p.userId

instance (s : Store) (viewer : Int) (p : Post) : Decidable (InFeedOf s viewer p) := by
  unfold InFeedOf; exact inferInstance

/-- No two like records have the same user and the same integer post id. -/
def LikesUniqueInt (s : Store) : Prop :=
  s.likes.Pairwise
    (fun a b => ¬ (a.userId = b.userId ∧ a.postId = b.postId ∧ a.postId ≠ none))

/-- The uniqueness invariants of the data model: one follow record per pair, no follow
record from a user to that same user, one like per user and post, one user per email. -/
def UniquenessInv (s : Store) : Prop :=
  s.follows.Pairwise
    (fun a b => ¬ (a.followerId = b.followerId ∧ a.followingId = b.followingId)) ∧
  (∀ f ∈ s.follows, f.followingId ≠ some f.followerId) ∧
  s.likes.Pairwise (fun a b => ¬ (a.userId = b.userId ∧ a.postId = b.postId)) ∧
  s.users.Pairwise (fun a b => a.email ≠ b.email)

/-- The store after a sequence of handler calls. -/
def run (s : Store) (rs : List Request) : Store := rs.foldl step s

/-- Ninety-eight `POST /api/posts` requests by user 1. -/
def ninetyEightPosts : List Request :=
  List.replicate 98 (.createPost 1 "https://example.com/a.png" "hello" "2024-01-02T00:00:00.000Z")

/-- The user ids stored by handlers on behalf of the caller belong to existing users. -/
def CallerRefsExist (s : Store) : Prop :=
  (∀ p ∈ s.posts, ∃ u ∈ s.users, u.id = p.userId) ∧
  (∀ l ∈ s.likes, ∃ u ∈ s.users, u.id = l.userId) ∧
  (∀ c ∈ s.comments, ∃ u ∈ s.users, u.id = c.userId) ∧
  (∀ f ∈ s.follows, ∃ u ∈ s.users, u.id = f.followerId)

/-- The ids stored by handlers from the path parameter belong to existing records. -/
def TargetRefsExist (s : Store) : Prop :=
  (∀ l ∈ s.likes, ∃ p ∈ s.posts, l.postId = some p.id) ∧
  (∀ c ∈ s.comments, ∃ p ∈ s.posts, c.postId = some p.id) ∧
  (∀ f ∈ s.follows, ∃ u ∈ s.users, f.followingId = some u.id)

/-- The path id of a like or comment request is the id of a post of the store, and the
path id of a follow request is the id of a user of the store. -/
def Request.targetExists (s : Store) : Request → Prop
  | .like _ p => ∃ q ∈ s.posts, p = some q.id
  | .addComment _ p _ _ => ∃ q ∈ s.posts, p = some q.id
  | .follow _ t => ∃ u ∈ s.users, t = some u.id
  | _ => True

/-- The method `includes` of a string: the argument occurs as a contiguous substring. -/
def includes (s q : String) : Bool :=
  s.data.tails.any (fun t => q.data.isPrefixOf t)

/-- The message of the `TypeError` raised by `u.username.toLowerCase()` when the user
record has no username. -/
def undefinedToLowerCase : String :=
  "Cannot read properties of undefined (reading \x27toLowerCase\x27)"

/-- Array `filter` with a callback that may throw: the first exception aborts the filter. -/
def filterThrow {α : Type} (f : α → Except String Bool) : List α → Except String (List α)
  | [] => .ok []
  | x :: xs =>
    match f x with
    | .error m => .error m
    | .ok b =>
      match filterThrow f xs with
      | .error m => .error m
      | .ok ys => .ok (if b then x :: ys else ys)

/-- The handler of `GET /api/users/search/:query`.  The built-in `toLowerCase` is a
parameter: the handler applies it to the query and to the username of every user, and
the call throws on a user record without username. -/
def search (toLowerCase : String → String) (s : Store) (userId : Int) (query : String) :
    Except Err (List UserSummary) :=
  let query := toLowerCase query
  match filterThrow (fun u =>
      match u.username with
      | none => .error undefinedToLowerCase
      | some username => .ok (includes (toLowerCase username) query && u.id != userId))
      s.users with
  | .error m => .error ⟨500, m⟩
  | .ok found =>
    .ok (found.map
      (fun u => ({ id := u.id, username := u.username, email := u.email } : UserSummary)))

/-- Lower-casing of the letters `A` to `Z`. -/
def asciiLower (s : String) : String := ⟨s.data.map Char.toLower⟩

/-- On strings of the ASCII range the built-in `toLowerCase` lowers the letters `A` to `Z`
and leaves every other character as it is. -/
def LowersAscii (toLowerCase : String → String) : Prop :=
  ∀ s : String, (∀ c ∈ s.data, c.val < 128) → toLowerCase s = asciiLower s

/-- Every user record has a username. -/
def UsernamesPresent (s : Store) : Prop :=
  ∀ u ∈ s.users, u.username ≠ none

/-- The search condition in the words of the specification: the user has a username
whose lower-cased form contains the lower-cased query, and is not the searching user. -/
def SearchHit (toLowerCase : String → String) (q : String) (S : Int) (u : User) : Prop :=
  ∃ name, u.username = some name ∧
    (toLowerCase q).data <:+: (toLowerCase name).data ∧ u.id ≠ S

instance (toLowerCase : String → String) (q : String) (S : Int) (u : User) :
    Decidable (SearchHit toLowerCase q S u) :=
  match h : u.username with
  | none => isFalse (fun ⟨_, hn, _⟩ => by rw [h] at hn; cases hn)
  | some name =>
    decidable_of_iff ((toLowerCase q).data <:+: (toLowerCase name).data ∧ u.id ≠ S)
      ⟨fun hx => ⟨name, h, hx⟩, fun ⟨n, hn, hx⟩ => by rw [h] at hn; cases hn; exact hx⟩

/-- A signup handler suspended at `await bcrypt.hash`, with the body fields it has read. -/
structure PendingSignup where
  username : Option String
  email : String
deriving DecidableEq, Repr

/-- The process: the store and the signup handlers that are suspended at their `await`. -/
structure Server where
  store : Store
  pending : List PendingSignup
deriving DecidableEq, Repr

/-- What the event loop runs next: a handler that runs to its end without suspending, the
first part of a signup (up to the `await`), or the continuation of the suspended signup
number `i` once `bcrypt.hash` has settled with `hashed`. -/
inductive Event where
  | request (r : Request)
  | signupStart (username : Option String) (email : String)
  | signupSettle (i : Nat) (hashed : Except String String) (now : String)

/-- One turn of the event loop. -/
def serve (sv : Server) : Event → Server
  | .request r => { sv with store := step sv.store r }
  | .signupStart username email =>
    match signupCheck sv.store email with
    | some _ => sv
    | none => { sv with pending := sv.pending ++ [{ username := username, email := email }] }
  | .signupSettle i hashed now =>
    match sv.pending[i]? with
    | none => sv
    | some p =>
      { store := (signupResume sv.store p.username p.email hashed now).1,
        pending := sv.pending.eraseIdx i }

/-- The process after a sequence of turns of the event loop. -/
def serveAll (sv : Server) (evs : List Event) : Server := evs.foldl serve sv

/-- Processes reachable from a freshly seeded one, every request satisfying `ok`. -/
inductive ServerReachable (ok : Request → Prop) : Server → Prop where
  | boot (e : SeedEnv) : ServerReachable ok { store := seeded e, pending := [] }
  | turn {sv : Server} (ev : Event) :
      ServerReachable ok sv → (∀ r, ev = .request r → ok r) → ServerReachable ok (serve sv ev)

/-- Two signup requests with the same email, the second arriving while the first is
suspended at `await bcrypt.hash`. -/
def overlappingSignups : List Event :=
  [ .signupStart (some "ann") "ann@example.com",
    .signupStart (some "ann_b") "ann@example.com",
    .signupSettle 0 (.ok "$2a$10$d1") "2024-01-02T00:00:00.000Z",
    .signupSettle 0 (.ok "$2a$10$d2") "2024-01-02T00:00:01.000Z" ]

/-- One follow record per pair, no follow record from a user to that same user, one like
per user and post. -/
def FollowLikeUnique (s : Store) : Prop :=
  s.follows.Pairwise
    (fun a b => ¬ (a.followerId = b.followerId ∧ a.followingId = b.followingId)) ∧
  (∀ f ∈ s.follows, f.followingId ≠ some f.followerId) ∧
  s.likes.Pairwise (fun a b => ¬ (a.userId = b.userId ∧ a.postId = b.postId))

/-- No follow record leads from a user to that same user. -/
def NoSelfFollow (s : Store) : Prop :=
  ∀ f ∈ s.follows, f.followingId ≠ some f.followerId

/-- The path id of a like or comment request is the id of a post of the store. -/
def Request.postExists (s : Store) : Request → Prop
  | .like _ p => ∃ q ∈ s.posts, p = some q.id
  | .addComment _ p _ _ => ∃ q ∈ s.posts, p = some q.id
  | _ => True

/-- The `postId` of every like and every comment is the id of a post of the store. -/
def PostRefsExist (s : Store) : Prop :=
  (∀ l ∈ s.likes, ∃ p ∈ s.posts, l.postId = some p.id) ∧
  (∀ c ∈ s.comments, ∃ p ∈ s.posts, c.postId = some p.id)

/-! ## Basic facts -/

theorem strictEq_some_right (a : Num) (b : Int) : strictEq a (some b) = true ↔ a = some b := by
  cases a <;> simp [strictEq]

theorem strictEq_some_left (a : Int) (b : Num) : strictEq (some a) b = true ↔ b = some a := by
  cases b with
  | none => simp [strictEq]
  | some b => simp only [strictEq, beq_iff_eq, Option.some.injEq]; exact eq_comm

theorem strictEq_none_right (a : Num) : strictEq a none = false := by
  cases a <;> rfl

theorem mapThrow_ok_of {α β : Type} (f : α → Except String β) (xs : List α)
    (h : ∀ x ∈ xs, ∃ y, f x = .ok y) : ∃ ys, mapThrow f xs = .ok ys := by
  induction xs with
  | nil => exact ⟨[], rfl⟩
  | cons x xs ih =>
    obtain ⟨y, hy⟩ := h x (List.mem_cons_self _ _)
    obtain ⟨ys, hys⟩ := ih (fun z hz => h z (List.mem_cons_of_mem _ hz))
    exact ⟨y :: ys, by simp [mapThrow, hy, hys]⟩

theorem mapThrow_forall₂ {α β : Type} (f : α → Except String β) :
    ∀ (xs : List α) (ys : List β), mapThrow f xs = .ok ys →
      List.Forall₂ (fun x y => f x = .ok y) xs ys := by
  intro xs
  induction xs with
  | nil =>
    intro ys h
    simp [mapThrow] at h
    subst h
    exact List.Forall₂.nil
  | cons x xs ih =>
    intro ys h
    unfold mapThrow at h
    cases hx : f x with
    | error m => rw [hx] at h; cases h
    | ok y =>
      rw [hx] at h
      cases hxs : mapThrow f xs with
      | error m => rw [hxs] at h; cases h
      | ok zs =>
        rw [hxs] at h
        cases h
        exact List.Forall₂.cons hx (ih zs hxs)

/-! ## The feed -/

theorem find?_id_some_of_mem (users : List User) (i : Int)
    (h : ∃ u ∈ users, u.id = i) : ∃ u, users.find? (fun u => u.id == i) = some u := by
  obtain ⟨u, hu, hi⟩ := h
  have : (users.find? (fun u => u.id == i)).isSome := by
    rw [List.find?_isSome]
    exact ⟨u, hu, by simp [hi]⟩
  exact Option.isSome_iff_exists.mp this

/-- What a successful run of the `map` callback of the feed returns. -/
theorem enrich_ok_inv (s : Store) (V : Int) (p : Post) (item : FeedPost)
    (h : enrich s V p = .ok item) :
    item.toPost = p ∧
    (∃ u, s.users.find? (fun u => u.id == p.userId) = some u ∧
      item.user = ⟨u.id, u.username, u.email⟩) ∧
    item.likesCount = (s.likes.filter (fun l => strictEq l.postId (some p.id))).length ∧
    item.isLiked = (s.likes.filter (fun l => strictEq l.postId (some p.id))).any
      (fun l => l.userId == V) ∧
    List.Forall₂ (fun c fc => ∃ u, s.users.find? (fun u => u.id == c.userId) = some u ∧
        fc = ({ toComment := c, user := ⟨u.id, u.username⟩ } : FeedComment))
      (s.comments.filter (fun c => strictEq c.postId (some p.id))) item.comments := by
  unfold enrich at h
  simp only [] at h
  cases hu : s.users.find? (fun u => u.id == p.userId) with
  | none => rw [hu] at h; cases h
  | some u =>
    rw [hu] at h
    simp only [] at h
    split at h
    · cases h
    · rename_i cs hcs
      cases h
      refine ⟨rfl, ⟨u, rfl, rfl⟩, rfl, rfl, ?_⟩
      have h2 := mapThrow_forall₂ _ _ _ hcs
      rw [List.forall₂_map_left_iff] at h2
      refine List.Forall₂.imp ?_ h2
      intro c fc hc
      simp only [] at hc
      cases hcu : s.users.find? (fun u => u.id == c.userId) with
      | none => rw [hcu] at hc; cases hc
      | some cu =>
        rw [hcu] at hc
        cases hc
        exact ⟨cu, rfl, rfl⟩

/-- The `map` callback of the feed does not throw on a post of a store whose authors exist. -/
theorem enrich_ok_of (s : Store) (V : Int) (p : Post) (h : AuthorsExist s)
    (hp : p ∈ s.posts) : ∃ item, enrich s V p = .ok item := by
  obtain ⟨u, hu⟩ := find?_id_some_of_mem s.users p.userId (h.1 p hp)
  have hcs : ∃ cs, mapThrow (fun (c : Comment × Option User) =>
        match c.2 with
        | none => .error undefinedId
        | some cu => .ok ({ toComment := c.1, user := { id := cu.id, username := cu.username } }
                            : FeedComment))
      ((s.comments.filter (fun c => strictEq c.postId (some p.id))).map
        (fun c => (c, s.users.find? (fun u => u.id == c.userId)))) = .ok cs := by
    apply mapThrow_ok_of
    intro x hx
    rw [List.mem_map] at hx
    obtain ⟨c, hc, rfl⟩ := hx
    obtain ⟨cu, hcu⟩ := find?_id_some_of_mem s.users c.userId
      (h.2 c (List.mem_of_mem_filter hc))
    simp only [hcu]
    exact ⟨_, rfl⟩
  obtain ⟨cs, hcs⟩ := hcs
  unfold enrich
  simp only [hu, hcs]
  exact ⟨_, rfl⟩

/-- The membership test `following.includes(p.userId)` of the feed handler. -/
theorem following_contains_iff (s : Store) (V : Int) (p : Post) :
    ((((s.follows.filter (fun f => f.followerId == V)).map (fun f => f.followingId))
      ++ [some V]).contains (some p.userId) = true) ↔ InFeedOf s V p := by
  simp only [List.contains_eq_any_beq, List.any_eq_true, List.mem_append, List.mem_map,
    List.mem_filter, List.mem_singleton, beq_iff_eq, InFeedOf]
  constructor
  · rintro ⟨x, (⟨f, ⟨hf, hV⟩, hp⟩ | h), hx⟩
    · exact Or.inr ⟨f, hf, hV, by rw [hp, hx]⟩
    · rw [h] at hx
      exact Or.inl (Option.some.inj hx)
  · rintro (h | ⟨f, hf, hV, hp⟩)
    · exact ⟨some V, Or.inr rfl, by rw [h]⟩
    · exact ⟨some p.userId, Or.inl ⟨f, ⟨hf, hV⟩, hp⟩, rfl⟩

theorem forall₂_map_eq {α β : Type} (g : β → α) :
    ∀ (xs : List α) (ys : List β), List.Forall₂ (fun x y => g y = x) xs ys → ys.map g = xs := by
  intro xs ys h
  induction h with
  | nil => rfl
  | cons h _ ih => simp [h, ih]

theorem forall₂_mem_right {α β : Type} (R : α → β → Prop) (xs : List α) (ys : List β)
    (h : List.Forall₂ R xs ys) : ∀ y ∈ ys, ∃ x ∈ xs, R x y := by
  induction h with
  | nil => intro y hy; cases hy
  | @cons a b as bs hab _ ih =>
    intro y hy
    rcases List.mem_cons.mp hy with rfl | hmem
    · exact ⟨a, List.mem_cons_self _ _, hab⟩
    · obtain ⟨x, hx, hR⟩ := ih y hmem
      exact ⟨x, List.mem_cons_of_mem _ hx, hR⟩

/-- The feed handler answers with a list whose items satisfy the callback relation. -/
theorem feed_ok (s : Store) (V : Int) (h : AuthorsExist s) :
    ∃ items, feed s V = .ok items ∧
      List.Forall₂ (fun p item => enrich s V p = .ok item)
        (s.posts.filter (fun p => decide (InFeedOf s V p))) items := by
  have hfilter : s.posts.filter (fun p =>
      ((((s.follows.filter (fun f => f.followerId == V)).map (fun f => f.followingId))
        ++ [some V]).contains (some p.userId))) =
      s.posts.filter (fun p => decide (InFeedOf s V p)) := by
    apply List.filter_congr
    intro p _
    rw [Bool.eq_iff_iff, following_contains_iff]
    simp
  obtain ⟨items, hitems⟩ := mapThrow_ok_of (enrich s V)
    (s.posts.filter (fun p => decide (InFeedOf s V p)))
    (fun p hp => enrich_ok_of s V p h (List.mem_of_mem_filter hp))
  refine ⟨items, ?_, mapThrow_forall₂ _ _ _ hitems⟩
  unfold feed
  simp only [hfilter, hitems]

/-- Claim C1. In a store where every post author and every comment author is an existing
user, the feed handler answers viewer `V` with a list, and the posts carried by that list
are exactly the post collection filtered to the posts whose author is `V` or is followed by
`V`, in the order of the post collection. -/
theorem feed_posts_exact (s : Store) (V : Int) (h : AuthorsExist s) :
    ∃ items, feed s V = .ok items ∧
      items.map (fun item => item.toPost) =
        s.posts.filter (fun p => decide (p.userId = V ∨
          ∃ f ∈ s.follows, f.followerId = V ∧ f.followingId = some p.userId)) := by
  obtain ⟨items, hfeed, hrel⟩ := feed_ok s V h
  refine ⟨items, hfeed, ?_⟩
  have : List.Forall₂ (fun p item => FeedPost.toPost item = p)
      (s.posts.filter (fun p => decide (InFeedOf s V p))) items :=
    List.Forall₂.imp (fun p item hi => (enrich_ok_inv s V p item hi).1) hrel
  have h2 := forall₂_map_eq FeedPost.toPost _ _ this
  rw [h2]
  rfl

theorem authorsExist_seeded (e : SeedEnv) : AuthorsExist (seeded e) := by
  simp [AuthorsExist, seeded, seedData, db]

theorem feed_posts_exact_witness :
    AuthorsExist (seeded env0) ∧
    ∃ items, feed (seeded env0) 1 = .ok items ∧
      items.map (fun item => item.toPost) =
        (seeded env0).posts.filter (fun p => decide (p.userId = 1 ∨
          ∃ f ∈ (seeded env0).follows, f.followerId = 1 ∧ f.followingId = some p.userId)) :=
  ⟨authorsExist_seeded env0, feed_posts_exact (seeded env0) 1 (authorsExist_seeded env0)⟩

/-- Claim C2. In a store where every post author and every comment author is an existing
user, every item of the feed of viewer `V` is a post of the store with: `user` the
id, username and email of the author record found for the post; `likesCount` the number of
likes whose `postId` is the post id; `isLiked` true exactly when one of those likes is by
`V`; `comments` the comments whose `postId` is the post id, in the order of the comment
collection, each with `user` the id and username of the author record found for it (the
nested summary has no other field). -/
theorem feed_item_fields (s : Store) (V : Int) (h : AuthorsExist s) :
    ∃ items, feed s V = .ok items ∧ ∀ item ∈ items,
      item.toPost ∈ s.posts ∧
      (∃ u, s.users.find? (fun u => u.id == item.userId) = some u ∧
        item.user = { id := u.id, username := u.username, email := u.email }) ∧
      item.likesCount = s.likes.countP (fun l => decide (l.postId = some item.id)) ∧
      (item.isLiked = true ↔ ∃ l ∈ s.likes, l.postId = some item.id ∧ l.userId = V) ∧
      item.comments.map (fun fc => fc.toComment) =
        s.comments.filter (fun c => decide (c.postId = some item.id)) ∧
      ∀ fc ∈ item.comments,
        ∃ u, s.users.find? (fun u => u.id == fc.userId) = some u ∧
          fc.user = { id := u.id, username := u.username } := by
  obtain ⟨items, hfeed, hrel⟩ := feed_ok s V h
  refine ⟨items, hfeed, ?_⟩
  intro item hitem
  obtain ⟨p, hpf, hen⟩ := forall₂_mem_right _ _ _ hrel item hitem
  have hp : p ∈ s.posts := List.mem_of_mem_filter hpf
  obtain ⟨h1, h2, h3, h4, h5⟩ := enrich_ok_inv s V p item hen
  have hid : item.id = p.id := by rw [← h1]
  have huid : item.userId = p.userId := by rw [← h1]
  have hlikes : s.likes.filter (fun l => strictEq l.postId (some p.id)) =
      s.likes.filter (fun l => decide (l.postId = some item.id)) := by
    apply List.filter_congr
    intro l _
    rw [Bool.eq_iff_iff, strictEq_some_right, hid]
    simp
  have hcomments : s.comments.filter (fun c => strictEq c.postId (some p.id)) =
      s.comments.filter (fun c => decide (c.postId = some item.id)) := by
    apply List.filter_congr
    intro c _
    rw [Bool.eq_iff_iff, strictEq_some_right, hid]
    simp
  refine ⟨h1 ▸ hp, ?_, ?_, ?_, ?_, ?_⟩
  · rw [huid]; exact h2
  · rw [h3, hlikes, List.countP_eq_length_filter]
  · rw [h4, hlikes]
    simp only [List.any_eq_true, List.mem_filter, decide_eq_true_eq, beq_iff_eq]
    constructor
    · rintro ⟨l, ⟨hl, hpid⟩, hV⟩
      exact ⟨l, hl, hpid, hV⟩
    · rintro ⟨l, hl, hpid, hV⟩
      exact ⟨l, ⟨hl, hpid⟩, hV⟩
  · rw [← hcomments]
    apply forall₂_map_eq
    refine List.Forall₂.imp ?_ h5
    rintro c fc ⟨u, _, rfl⟩
    rfl
  · intro fc hfc
    obtain ⟨c, _, u, hu, rfl⟩ := forall₂_mem_right _ _ _ h5 fc hfc
    exact ⟨u, hu, rfl⟩

theorem feed_item_fields_witness :
    AuthorsExist (seeded env0) ∧
    ∃ items, feed (seeded env0) 2 = .ok items ∧ ∀ item ∈ items,
      item.toPost ∈ (seeded env0).posts ∧
      (∃ u, (seeded env0).users.find? (fun u => u.id == item.userId) = some u ∧
        item.user = { id := u.id, username := u.username, email := u.email }) ∧
      item.likesCount = (seeded env0).likes.countP (fun l => decide (l.postId = some item.id)) ∧
      (item.isLiked = true ↔
        ∃ l ∈ (seeded env0).likes, l.postId = some item.id ∧ l.userId = 2) ∧
      item.comments.map (fun fc => fc.toComment) =
        (seeded env0).comments.filter (fun c => decide (c.postId = some item.id)) ∧
      ∀ fc ∈ item.comments,
        ∃ u, (seeded env0).users.find? (fun u => u.id == fc.userId) = some u ∧
          fc.user = { id := u.id, username := u.username } :=
  ⟨authorsExist_seeded env0, feed_item_fields (seeded env0) 2 (authorsExist_seeded env0)⟩

/-! ## The seeded feed -/

/-- Claim C3 as stated fails: on the seeded store the feed of user 1 does not consist of
posts 101 and 103 without post 102, because the seed makes user 1 follow user 3 as well. -/
theorem seeded_feed_not_without_102 :
    ¬ ∃ items, feed (seeded env0) 1 = .ok items ∧
        (∃ i ∈ items, i.id = 101) ∧ (∃ i ∈ items, i.id = 103) ∧ ∀ i ∈ items, i.id ≠ 102 := by
  rintro ⟨items, hfeed, -, -, h102⟩
  have hfeed2 : feed (seeded env0) 1 = .ok items := hfeed
  have : ∃ a b c, feed (seeded env0) 1 = .ok [a, b, c] ∧ b.id = 102 := ⟨_, _, _, rfl, rfl⟩
  obtain ⟨a, b, c, habc, hb⟩ := this
  rw [habc] at hfeed2
  cases hfeed2
  exact h102 b (by simp) hb

/-- Claim C3, amended. On the seeded store the feed of user 1 is posts 101, 102 and 103 in
this order (user 1 follows users 2 and 3); the item of post 101 has `likesCount = 1`,
`isLiked = true` and exactly one comment, by user 1, with text "Amazing view!"; the items
of posts 102 and 103 have no like and no comment. -/
theorem seeded_feed_user1 (e : SeedEnv) :
    feed (seeded e) 1 = .ok
      [ { id := 101, userId := 2,
          imageUrl := "https://images.unsplash.com/photo-1506905925346-21bda4d32df4",
          caption := "Mountain adventure! 🏔️", createdAt := e.created101,
          user := { id := 2, username := "jane_smith", email := "jane@example.com" },
          likesCount := 1, isLiked := true,
          comments := [ { id := 401, postId := some 101, userId := 1, text := "Amazing view!",
                          createdAt := e.created401,
                          user := { id := 1, username := "john_doe" } } ] },
        { id := 102, userId := 3,
          imageUrl := "https://images.unsplash.com/photo-1551963831-b3b1ca40c98e",
          caption := "Coffee time ☕", createdAt := e.created102,
          user := { id := 3, username := "bob_wilson", email := "bob@example.com" },
          likesCount := 0, isLiked := false, comments := [] },
        { id := 103, userId := 2,
          imageUrl := "https://images.unsplash.com/photo-1469474968028-56623f02e42e",
          caption := "Nature walks 🌲", createdAt := e.created103,
          user := { id := 2, username := "jane_smith", email := "jane@example.com" },
          likesCount := 0, isLiked := false, comments := [] } ] := by
  rfl

/-! ## Follow and like toggles -/

theorem findIdx?_append_last {α : Type} (p : α → Bool) (l : List α) (a : α)
    (hl : ∀ x ∈ l, p x = false) (ha : p a = true) :
    (l ++ [a]).findIdx? p = some l.length := by
  have hnone : l.findIdx? p = none := List.findIdx?_eq_none_iff.mpr hl
  simp [List.findIdx?_append, hnone, ha]

theorem eraseIdx_append_last {α : Type} (l : List α) (a : α) :
    (l ++ [a]).eraseIdx l.length = l := by
  rw [List.eraseIdx_append_of_length_le (Nat.le_refl _)]
  simp

/-- The store and answer of a follow request that passes both checks. -/
theorem follow_ok_iff (s : Store) (A : Int) (T : Num) :
    (follow s A T).2 = .ok () ↔
      T ≠ some A ∧ ∀ f ∈ s.follows, ¬ (f.followerId = A ∧ strictEq f.followingId T = true) := by
  unfold follow
  by_cases hself : strictEq (some A) T = true
  · simp only [hself, if_true]
    have := (strictEq_some_left A T).mp hself
    simp [this]
  · simp only [hself]
    have hne : T ≠ some A := fun h => hself ((strictEq_some_left A T).mpr h)
    by_cases hex : (s.follows.find?
        (fun f => f.followerId == A && strictEq f.followingId T)).isSome = true
    · simp only [hex, if_true]
      rw [List.find?_isSome] at hex
      obtain ⟨f, hf, hp⟩ := hex
      simp only [Bool.and_eq_true, beq_iff_eq] at hp
      constructor
      · intro h; cases h
      · rintro ⟨_, h⟩
        exact absurd hp (h f hf)
    · simp only [hex]
      rw [List.find?_isSome] at hex
      simp only [Bool.false_eq_true, if_false, true_iff]
      refine ⟨hne, fun f hf hp => hex ⟨f, hf, ?_⟩⟩
      simp only [Bool.and_eq_true, beq_iff_eq]
      exact hp

theorem follow_fst_of_ok (s : Store) (A : Int) (T : Num) (h : (follow s A T).2 = .ok ()) :
    (follow s A T).1 =
      { s with nextId := s.nextId + 1,
               follows := s.follows ++ [{ id := s.nextId, followerId := A, followingId := T }] } := by
  obtain ⟨hne, hno⟩ := (follow_ok_iff s A T).mp h
  have hself : strictEq (some A) T = false := by
    rw [Bool.eq_false_iff]
    exact fun hT => hne ((strictEq_some_left A T).mp hT)
  have hex : (s.follows.find?
      (fun f => f.followerId == A && strictEq f.followingId T)).isSome = false := by
    rw [Bool.eq_false_iff, Ne, List.find?_isSome]
    rintro ⟨f, hf, hp⟩
    simp only [Bool.and_eq_true, beq_iff_eq] at hp
    exact hno f hf hp
  unfold follow
  simp only [hself, hex, Bool.false_eq_true, if_false]

theorem unfollow_of_none (s : Store) (A : Int) (T : Num)
    (h : ∀ f ∈ s.follows, ¬ (f.followerId = A ∧ strictEq f.followingId T = true)) :
    unfollow s A T = (s, .error ⟨400, "Not following"⟩) := by
  have hnone : s.follows.findIdx?
      (fun f => f.followerId == A && strictEq f.followingId T) = none := by
    rw [List.findIdx?_eq_none_iff]
    intro f hf
    have := h f hf
    simp only [Bool.and_eq_false_imp, beq_iff_eq]
    intro hA
    by_contra hT
    exact this ⟨hA, by simpa using hT⟩
  unfold unfollow
  rw [hnone]

/-- Claim C4. When the follow request of `A` on the integer id `B` succeeds (which means
`A ≠ B` and no follow record `(A, B)` exists), the unfollow request of `A` on `B` issued
right afterwards succeeds and leaves the follows collection equal to the one before the
follow; a second unfollow then answers 400 "Not following" and leaves the store as it is. -/
theorem follow_then_unfollow (s : Store) (A B : Int)
    (h : (follow s A (some B)).2 = .ok ()) :
    (A ≠ B ∧ ∀ f ∈ s.follows, ¬ (f.followerId = A ∧ f.followingId = some B)) ∧
    (unfollow (follow s A (some B)).1 A (some B)).2 = .ok () ∧
    (unfollow (follow s A (some B)).1 A (some B)).1.follows = s.follows ∧
    unfollow (unfollow (follow s A (some B)).1 A (some B)).1 A (some B) =
      ((unfollow (follow s A (some B)).1 A (some B)).1, .error ⟨400, "Not following"⟩) := by
  have hok := (follow_ok_iff s A (some B)).mp h
  have hno : ∀ f ∈ s.follows,
      (fun f : Follow => f.followerId == A && strictEq f.followingId (some B)) f = false := by
    intro f hf
    have := hok.2 f hf
    simp only [Bool.and_eq_false_imp, beq_iff_eq]
    intro hA
    by_contra hT
    exact this ⟨hA, by simpa using hT⟩
  have hidx := findIdx?_append_last
    (fun f : Follow => f.followerId == A && strictEq f.followingId (some B)) s.follows
    { id := s.nextId, followerId := A, followingId := some B } hno (by simp [strictEq])
  have hun : unfollow (follow s A (some B)).1 A (some B) =
      ({ s with nextId := s.nextId + 1 }, .ok ()) := by
    rw [follow_fst_of_ok s A (some B) h]
    unfold unfollow
    simp only [hidx, eraseIdx_append_last]
  refine ⟨⟨?_, ?_⟩, ?_, ?_, ?_⟩
  · intro hAB
    exact hok.1 (by rw [hAB])
  · intro f hf hp
    exact hok.2 f hf ⟨hp.1, (strictEq_some_right _ _).mpr hp.2⟩
  · rw [hun]
  · rw [hun]
  · rw [hun]
    exact unfollow_of_none _ A (some B) hok.2

theorem follow_then_unfollow_witness :
    (follow (seeded env0) 2 (some 3)).2 = .ok () ∧
    (unfollow (follow (seeded env0) 2 (some 3)).1 2 (some 3)).1.follows =
      (seeded env0).follows :=
  ⟨rfl, (follow_then_unfollow (seeded env0) 2 3 rfl).2.2.1⟩

theorem findIdx?_some_split {α : Type} (p : α → Bool) :
    ∀ (l : List α) (i : Nat), l.findIdx? p = some i →
      ∃ pre a post, l = pre ++ a :: post ∧ (∀ x ∈ pre, p x = false) ∧ p a = true ∧
        l.eraseIdx i = pre ++ post := by
  intro l
  induction l with
  | nil => intro i h; simp at h
  | cons x xs ih =>
    intro i h
    rw [List.findIdx?_cons] at h
    by_cases hx : p x = true
    · rw [if_pos hx] at h
      cases h
      exact ⟨[], x, xs, rfl, by simp, hx, rfl⟩
    · rw [if_neg hx, List.findIdx?_succ] at h
      cases hxs : xs.findIdx? p with
      | none => rw [hxs] at h; cases h
      | some j =>
        rw [hxs] at h
        cases h
        obtain ⟨pre, a, post, hl, hpre, ha, her⟩ := ih j hxs
        refine ⟨x :: pre, a, post, by rw [hl]; rfl, ?_, ha, ?_⟩
        · intro y hy
          rcases List.mem_cons.mp hy with rfl | hmem
          · simpa using hx
          · exact hpre y hmem
        · simp [List.eraseIdx_cons_succ, her]

theorem findIdx?_some_of_mem {α : Type} (p : α → Bool) (l : List α)
    (h : ∃ x ∈ l, p x = true) : ∃ i, l.findIdx? p = some i := by
  cases hl : l.findIdx? p with
  | some i => exact ⟨i, rfl⟩
  | none =>
    rw [List.findIdx?_eq_none_iff] at hl
    obtain ⟨x, hx, hp⟩ := h
    rw [hl x hx] at hp
    cases hp

/-- The test of the like handlers, as a statement about the record. -/
theorem like_test_iff (U P : Int) (l : Like) :
    (l.userId == U && strictEq l.postId (some P)) = true ↔ l.userId = U ∧ l.postId = some P := by
  simp only [Bool.and_eq_true, beq_iff_eq, strictEq_some_right]

theorem like_of_none (s : Store) (U : Int) (T : Num)
    (h : ∀ l ∈ s.likes, (l.userId == U && strictEq l.postId T) = false) :
    like s U T =
      ({ s with nextId := s.nextId + 1,
                likes := s.likes ++ [{ id := s.nextId, userId := U, postId := T }] }, .ok ()) := by
  have hex : (s.likes.find? (fun l => l.userId == U && strictEq l.postId T)).isSome = false := by
    rw [Bool.eq_false_iff, Ne, List.find?_isSome]
    rintro ⟨l, hl, hp⟩
    rw [h l hl] at hp
    cases hp
  unfold like
  simp only [hex, Bool.false_eq_true, if_false]

theorem like_of_some (s : Store) (U : Int) (T : Num)
    (h : ∃ l ∈ s.likes, (l.userId == U && strictEq l.postId T) = true) :
    like s U T = (s, .error ⟨400, "Already liked"⟩) := by
  have hex : (s.likes.find? (fun l => l.userId == U && strictEq l.postId T)).isSome = true := by
    rw [List.find?_isSome]
    exact h
  unfold like
  simp only [hex, if_true]

theorem unlike_of_none (s : Store) (U : Int) (T : Num)
    (h : ∀ l ∈ s.likes, (l.userId == U && strictEq l.postId T) = false) :
    unlike s U T = (s, .error ⟨400, "Not liked"⟩) := by
  unfold unlike
  rw [List.findIdx?_eq_none_iff.mpr h]

theorem unlike_of_some (s : Store) (U : Int) (T : Num)
    (h : ∃ l ∈ s.likes, (l.userId == U && strictEq l.postId T) = true) :
    ∃ pre l post, s.likes = pre ++ l :: post ∧
      (∀ x ∈ pre, (x.userId == U && strictEq x.postId T) = false) ∧
      (l.userId == U && strictEq l.postId T) = true ∧
      unlike s U T = ({ s with likes := pre ++ post }, .ok ()) := by
  obtain ⟨i, hi⟩ := findIdx?_some_of_mem _ _ h
  obtain ⟨pre, l, post, hl, hpre, hp, her⟩ := findIdx?_some_split _ _ _ hi
  refine ⟨pre, l, post, hl, hpre, hp, ?_⟩
  unfold unlike
  rw [hi]
  simp only [her]

theorem like_cases (s : Store) (U : Int) (T : Num) :
    (∃ l ∈ s.likes, (l.userId == U && strictEq l.postId T) = true) ∨
    (∀ l ∈ s.likes, (l.userId == U && strictEq l.postId T) = false) := by
  by_cases h : ∃ l ∈ s.likes, (l.userId == U && strictEq l.postId T) = true
  · exact Or.inl h
  · refine Or.inr (fun l hl => ?_)
    rw [Bool.eq_false_iff]
    exact fun hp => h ⟨l, hl, hp⟩

/-- Claim C5. When the like request of `U` on the integer post id `P` succeeds, the unlike
request of `U` on `P` issued right afterwards succeeds, the likes collection is again the
one before the like, and so the number of likes of `P` and of every other post is what it
was before the two requests. -/
theorem like_then_unlike (s : Store) (U P : Int) (h : (like s U (some P)).2 = .ok ()) :
    (unlike (like s U (some P)).1 U (some P)).2 = .ok () ∧
    (unlike (like s U (some P)).1 U (some P)).1.likes = s.likes ∧
    ∀ Q : Int, (unlike (like s U (some P)).1 U (some P)).1.likes.countP
        (fun l => decide (l.postId = some Q)) =
      s.likes.countP (fun l => decide (l.postId = some Q)) := by
  have hno : ∀ l ∈ s.likes, (l.userId == U && strictEq l.postId (some P)) = false := by
    rcases like_cases s U (some P) with hsome | hnone
    · rw [like_of_some s U (some P) hsome] at h
      cases h
    · exact hnone
  have hidx := findIdx?_append_last
    (fun l : Like => l.userId == U && strictEq l.postId (some P)) s.likes
    { id := s.nextId, userId := U, postId := some P } hno (by simp [strictEq])
  have hun : unlike (like s U (some P)).1 U (some P) =
      ({ s with nextId := s.nextId + 1 }, .ok ()) := by
    rw [like_of_none s U (some P) hno]
    unfold unlike
    simp only [hidx, eraseIdx_append_last]
  rw [hun]
  exact ⟨rfl, rfl, fun _ => rfl⟩

theorem like_then_unlike_witness :
    (like (seeded env0) 2 (some 101)).2 = .ok () ∧
    (unlike (like (seeded env0) 2 (some 101)).1 2 (some 101)).1.likes = (seeded env0).likes :=
  ⟨rfl, (like_then_unlike (seeded env0) 2 101 rfl).2.1⟩

theorem like_test_cases (s : Store) (U P : Int) :
    ((∃ l ∈ s.likes, l.userId = U ∧ l.postId = some P) ↔
      ∃ l ∈ s.likes, (l.userId == U && strictEq l.postId (some P)) = true) ∧
    ((¬ ∃ l ∈ s.likes, l.userId = U ∧ l.postId = some P) ↔
      ∀ l ∈ s.likes, (l.userId == U && strictEq l.postId (some P)) = false) := by
  constructor
  · constructor
    · rintro ⟨l, hl, hp⟩
      exact ⟨l, hl, (like_test_iff U P l).mpr hp⟩
    · rintro ⟨l, hl, hp⟩
      exact ⟨l, hl, (like_test_iff U P l).mp hp⟩
  · constructor
    · intro h l hl
      rw [Bool.eq_false_iff]
      exact fun hp => h ⟨l, hl, (like_test_iff U P l).mp hp⟩
    · rintro h ⟨l, hl, hp⟩
      have h1 := h l hl
      rw [(like_test_iff U P l).mpr hp] at h1
      cases h1

/-- Claim C7. A follow request whose target is the caller answers 400 "Cannot follow
yourself" and returns the store as it received it, whatever follow records the store holds
(a record `(A, A)` included, so the answer is never "Already following"). -/
theorem follow_self (s : Store) (A : Int) :
    follow s A (some A) = (s, .error ⟨400, "Cannot follow yourself"⟩) := by
  unfold follow
  simp [strictEq]

/-! ## Uniqueness invariants -/

theorem reachableVia_induction (ok : Store → Request → Prop) (inv : Store → Prop)
    (hseed : ∀ e, inv (seeded e))
    (hstep : ∀ s r, ok s r → inv s → inv (step s r)) :
    ∀ s, ReachableVia ok s → inv s := by
  intro s h
  induction h with
  | seed e => exact hseed e
  | call r _ hok ih => exact hstep _ r hok ih

theorem pairwise_append_one {α : Type} (R : α → α → Prop) (l : List α) (a : α)
    (hl : l.Pairwise R) (ha : ∀ x ∈ l, R x a) : (l ++ [a]).Pairwise R := by
  rw [List.pairwise_append]
  refine ⟨hl, List.pairwise_singleton _ _, ?_⟩
  intro x hx b hb
  rw [List.mem_singleton] at hb
  rw [hb]
  exact ha x hx

theorem pairwise_remove_one {α : Type} (R : α → α → Prop) (pre post : List α) (a : α)
    (h : (pre ++ a :: post).Pairwise R) : (pre ++ post).Pairwise R :=
  h.sublist (List.Sublist.append_left (List.sublist_cons_self a post) pre)

theorem follow_cases (s : Store) (A : Int) (T : Num) :
    follow s A T = (s, .error ⟨400, "Cannot follow yourself"⟩) ∨
    follow s A T = (s, .error ⟨400, "Already following"⟩) ∨
    (T ≠ some A ∧
      (∀ f ∈ s.follows, ¬ (f.followerId = A ∧ strictEq f.followingId T = true)) ∧
      follow s A T =
        ({ s with nextId := s.nextId + 1,
                  follows := s.follows ++
                    [{ id := s.nextId, followerId := A, followingId := T }] }, .ok ())) := by
  by_cases hself : strictEq (some A) T = true
  · left
    unfold follow
    simp only [hself, if_true]
  · by_cases hex : (s.follows.find?
        (fun f => f.followerId == A && strictEq f.followingId T)).isSome = true
    · right; left
      unfold follow
      simp only [hself, hex, if_true, Bool.false_eq_true, if_false]
    · right; right
      have hok : (follow s A T).2 = .ok () := by
        unfold follow
        simp only [hself, hex, Bool.false_eq_true, if_false]
      obtain ⟨hne, hno⟩ := (follow_ok_iff s A T).mp hok
      exact ⟨hne, hno, Prod.ext (follow_fst_of_ok s A T hok) hok⟩

theorem unfollow_cases (s : Store) (A : Int) (T : Num) :
    unfollow s A T = (s, .error ⟨400, "Not following"⟩) ∨
    ∃ pre f post, s.follows = pre ++ f :: post ∧
      unfollow s A T = ({ s with follows := pre ++ post }, .ok ()) := by
  unfold unfollow
  cases hi : s.follows.findIdx?
      (fun f => f.followerId == A && strictEq f.followingId T) with
  | none => exact Or.inl rfl
  | some i =>
    obtain ⟨pre, f, post, hl, _, _, her⟩ := findIdx?_some_split _ _ _ hi
    exact Or.inr ⟨pre, f, post, hl, by simp only [her]⟩

theorem unlike_cases (s : Store) (U : Int) (T : Num) :
    unlike s U T = (s, .error ⟨400, "Not liked"⟩) ∨
    ∃ pre l post, s.likes = pre ++ l :: post ∧
      unlike s U T = ({ s with likes := pre ++ post }, .ok ()) := by
  rcases like_cases s U T with hsome | hnone
  · obtain ⟨pre, l, post, hl, _, _, hun⟩ := unlike_of_some s U T hsome
    exact Or.inr ⟨pre, l, post, hl, hun⟩
  · exact Or.inl (unlike_of_none s U T hnone)

theorem signup_cases (s : Store) (username : Option String) (email : String)
    (hashed : Except String String) (now : String) :
    (signup s username email hashed now).1 = s ∨
    ((∀ u ∈ s.users, u.email ≠ email) ∧
      ∃ digest, (signup s username email hashed now).1 =
        { s with nextId := s.nextId + 1,
                 users := s.users ++ [{ id := s.nextId, username := username, email := email,
                                        password := digest, createdAt := some now }] }) := by
  by_cases hex : (s.users.find? (fun u => u.email == email)).isSome = true
  · left
    simp only [signup, signupCheck, hex, if_true]
  · cases hashed with
    | error m =>
      left
      simp only [signup, signupCheck, hex, Bool.false_eq_true, if_false, signupResume]
    | ok digest =>
      right
      refine ⟨?_, digest, ?_⟩
      · intro u hu he
        apply hex
        rw [List.find?_isSome]
        exact ⟨u, hu, by simp [he]⟩
      · simp only [signup, signupCheck, hex, Bool.false_eq_true, if_false, signupResume]

theorem addComment_fst (s : Store) (U : Int) (T : Num) (text now : String) :
    (addComment s U T text now).1 =
      { s with nextId := s.nextId + 1,
               comments := s.comments ++
                 [{ id := s.nextId, postId := T, userId := U, text := text,
                    createdAt := now }] } := by
  unfold addComment
  simp only []
  split <;> rfl

theorem uniquenessInv_seeded (e : SeedEnv) : UniquenessInv (seeded e) := by
  simp [UniquenessInv, seeded, seedData, db]

theorem uniquenessInv_step (s : Store) (r : Request) (hr : r.integerPath)
    (h : UniquenessInv s) : UniquenessInv (step s r) := by
  obtain ⟨hf, hself, hl, hu⟩ := h
  cases r with
  | signup username email hashed now =>
    rcases signup_cases s username email hashed now with h1 | ⟨hne, digest, h1⟩
    · simp only [step, h1]
      exact ⟨hf, hself, hl, hu⟩
    · simp only [step, h1]
      exact ⟨hf, hself, hl, pairwise_append_one _ _ _ hu (fun x hx => hne x hx)⟩
  | login email => exact ⟨hf, hself, hl, hu⟩
  | createPost U imageUrl caption now => exact ⟨hf, hself, hl, hu⟩
  | feed U => exact ⟨hf, hself, hl, hu⟩
  | userPosts U T => exact ⟨hf, hself, hl, hu⟩
  | like U T =>
    cases T with
    | none => exact absurd rfl hr
    | some P =>
      rcases like_cases s U (some P) with hsome | hnone
      · simp only [step, like_of_some s U (some P) hsome]
        exact ⟨hf, hself, hl, hu⟩
      · simp only [step, like_of_none s U (some P) hnone]
        refine ⟨hf, hself, pairwise_append_one _ _ _ hl ?_, hu⟩
        intro x hx hp
        have h1 := hnone x hx
        rw [(like_test_iff U P x).mpr hp] at h1
        cases h1
  | unlike U T =>
    rcases unlike_cases s U T with h1 | ⟨pre, l, post, hlikes, h1⟩
    · simp only [step, h1]
      exact ⟨hf, hself, hl, hu⟩
    · simp only [step, h1]
      rw [hlikes] at hl
      exact ⟨hf, hself, pairwise_remove_one _ _ _ _ hl, hu⟩
  | addComment U T text now =>
    simp only [step, addComment_fst]
    exact ⟨hf, hself, hl, hu⟩
  | follow U T =>
    cases T with
    | none => exact absurd rfl hr
    | some B =>
      rcases follow_cases s U (some B) with h1 | h1 | ⟨hne, hno, h1⟩
      · simp only [step, h1]
        exact ⟨hf, hself, hl, hu⟩
      · simp only [step, h1]
        exact ⟨hf, hself, hl, hu⟩
      · simp only [step, h1]
        refine ⟨pairwise_append_one _ _ _ hf ?_, ?_, hl, hu⟩
        · intro x hx hp
          exact hno x hx ⟨hp.1, (strictEq_some_right _ _).mpr hp.2⟩
        · intro f hmem
          rcases List.mem_append.mp hmem with hin | hnew
          · exact hself f hin
          · rw [List.mem_singleton] at hnew
            rw [hnew]
            exact hne
  | unfollow U T =>
    rcases unfollow_cases s U T with h1 | ⟨pre, f, post, hfollows, h1⟩
    · simp only [step, h1]
      exact ⟨hf, hself, hl, hu⟩
    · simp only [step, h1]
      rw [hfollows] at hf
      refine ⟨pairwise_remove_one _ _ _ _ hf, ?_, hl, hu⟩
      intro g hg
      apply hself g
      rw [hfollows]
      rcases List.mem_append.mp hg with hin | hin
      · exact List.mem_append_left _ hin
      · exact List.mem_append_right _ (List.mem_cons_of_mem _ hin)
  | profile U T => exact ⟨hf, hself, hl, hu⟩
  | search U q => exact ⟨hf, hself, hl, hu⟩

/-- When every handler, signup included, runs to its end before the next one starts, the
four uniqueness invariants hold on the seeded store, are preserved by every handler called
with an integer path id, and hold in every store reachable by such calls. -/
theorem uniquenessInv_serialised :
    (∀ e, UniquenessInv (seeded e)) ∧
    (∀ s r, Request.integerPath r → UniquenessInv s → UniquenessInv (step s r)) ∧
    (∀ s, ReachableVia (fun _ r => Request.integerPath r) s → UniquenessInv s) :=
  ⟨uniquenessInv_seeded, uniquenessInv_step,
   reachableVia_induction _ _ uniquenessInv_seeded
     (fun s r hr hs => uniquenessInv_step s r hr hs)⟩

theorem followLikeUnique_step (s : Store) (r : Request) (hr : r.integerPath)
    (h : FollowLikeUnique s) : FollowLikeUnique (step s r) := by
  obtain ⟨hf, hself, hl⟩ := h
  cases r with
  | signup username email hashed now =>
    rcases signup_cases s username email hashed now with h1 | ⟨_, digest, h1⟩
    · simp only [step, h1]
      exact ⟨hf, hself, hl⟩
    · simp only [step, h1]
      exact ⟨hf, hself, hl⟩
  | login email => exact ⟨hf, hself, hl⟩
  | createPost U imageUrl caption now => exact ⟨hf, hself, hl⟩
  | feed U => exact ⟨hf, hself, hl⟩
  | userPosts U T => exact ⟨hf, hself, hl⟩
  | like U T =>
    cases T with
    | none => exact absurd rfl hr
    | some P =>
      rcases like_cases s U (some P) with hsome | hnone
      · simp only [step, like_of_some s U (some P) hsome]
        exact ⟨hf, hself, hl⟩
      · simp only [step, like_of_none s U (some P) hnone]
        refine ⟨hf, hself, pairwise_append_one _ _ _ hl ?_⟩
        intro x hx hp
        have h1 := hnone x hx
        rw [(like_test_iff U P x).mpr hp] at h1
        cases h1
  | unlike U T =>
    rcases unlike_cases s U T with h1 | ⟨pre, l, post, hlikes, h1⟩
    · simp only [step, h1]
      exact ⟨hf, hself, hl⟩
    · simp only [step, h1]
      rw [hlikes] at hl
      exact ⟨hf, hself, pairwise_remove_one _ _ _ _ hl⟩
  | addComment U T text now =>
    simp only [step, addComment_fst]
    exact ⟨hf, hself, hl⟩
  | follow U T =>
    cases T with
    | none => exact absurd rfl hr
    | some B =>
      rcases follow_cases s U (some B) with h1 | h1 | ⟨hne, hno, h1⟩
      · simp only [step, h1]
        exact ⟨hf, hself, hl⟩
      · simp only [step, h1]
        exact ⟨hf, hself, hl⟩
      · simp only [step, h1]
        refine ⟨pairwise_append_one _ _ _ hf ?_, ?_, hl⟩
        · intro x hx hp
          exact hno x hx ⟨hp.1, (strictEq_some_right _ _).mpr hp.2⟩
        · intro f hmem
          rcases List.mem_append.mp hmem with hin | hnew
          · exact hself f hin
          · rw [List.mem_singleton] at hnew
            rw [hnew]
            exact hne
  | unfollow U T =>
    rcases unfollow_cases s U T with h1 | ⟨pre, f, post, hfollows, h1⟩
    · simp only [step, h1]
      exact ⟨hf, hself, hl⟩
    · simp only [step, h1]
      rw [hfollows] at hf
      refine ⟨pairwise_remove_one _ _ _ _ hf, ?_, hl⟩
      intro g hg
      apply hself g
      rw [hfollows]
      rcases List.mem_append.mp hg with hin | hin
      · exact List.mem_append_left _ hin
      · exact List.mem_append_right _ (List.mem_cons_of_mem _ hin)
  | profile U T => exact ⟨hf, hself, hl⟩
  | search U q => exact ⟨hf, hself, hl⟩

theorem followLikeUnique_serve (sv : Server) (ev : Event)
    (hev : ∀ r, ev = .request r → Request.integerPath r)
    (h : FollowLikeUnique sv.store) : FollowLikeUnique (serve sv ev).store := by
  cases ev with
  | request r => exact followLikeUnique_step sv.store r (hev r rfl) h
  | signupStart username email =>
    simp only [serve]
    cases signupCheck sv.store email with
    | some e => exact h
    | none => exact h
  | signupSettle i hashed now =>
    simp only [serve]
    cases sv.pending[i]? with
    | none => exact h
    | some p =>
      cases hashed with
      | error m => exact h
      | ok digest => exact h

/-- The invariants of follows and likes (one follow record per pair, no follow record
from a user to that same user, one like per user and post) hold in every process state
reachable with integer path ids, also when signups overlap. -/
theorem followLikeUnique_overlapping (sv : Server)
    (h : ServerReachable Request.integerPath sv) : FollowLikeUnique sv.store := by
  induction h with
  | boot e => simp [FollowLikeUnique, seeded, seedData, db]
  | turn ev _ hev ih => exact followLikeUnique_serve _ ev hev ih

theorem serverReachable_serveAll (ok : Request → Prop) (evs : List Event) :
    ∀ sv, ServerReachable ok sv → (∀ ev ∈ evs, ∀ r, ev = .request r → ok r) →
      ServerReachable ok (serveAll sv evs) := by
  induction evs with
  | nil => intro sv h _; exact h
  | cons ev evs ih =>
    intro sv h hev
    exact ih (serve sv ev) (.turn ev h (hev ev (List.mem_cons_self _ _)))
      (fun e he => hev e (List.mem_cons_of_mem _ he))

/-- Claim C8 fails on the code: the signup handler tests the email, is suspended at
`await bcrypt.hash`, and pushes the user without testing again. When a second signup with
the same email arrives during the suspension, both pass the test and the store ends with
the users 4 and 5 sharing one email, so the uniqueness invariants do not hold there. -/
theorem overlapping_signups_share_email :
    ServerReachable Request.integerPath
      (serveAll { store := seeded env0, pending := [] } overlappingSignups) ∧
    (serveAll { store := seeded env0, pending := [] } overlappingSignups).store.users.map
        (fun u => (u.id, u.email)) =
      [(1, "john@example.com"), (2, "jane@example.com"), (3, "bob@example.com"),
       (4, "ann@example.com"), (5, "ann@example.com")] ∧
    ¬ UniquenessInv (serveAll { store := seeded env0, pending := [] } overlappingSignups).store := by
  refine ⟨serverReachable_serveAll _ _ _ (.boot env0) ?_, by decide, ?_⟩
  · intro ev hev r hr
    subst hr
    simp [overlappingSignups] at hev
  · intro h
    exact absurd h.2.2.2 (by decide)

/-! ## Likes on reachable stores -/

theorem likesUniqueInt_seeded (e : SeedEnv) : LikesUniqueInt (seeded e) := by
  simp [LikesUniqueInt, seeded, seedData, db]

theorem likesUniqueInt_step (s : Store) (r : Request) (h : LikesUniqueInt s) :
    LikesUniqueInt (step s r) := by
  cases r with
  | signup username email hashed now =>
    rcases signup_cases s username email hashed now with h1 | ⟨_, digest, h1⟩
    · simp only [step, h1]; exact h
    · simp only [step, h1]; exact h
  | login email => exact h
  | createPost U imageUrl caption now => exact h
  | feed U => exact h
  | userPosts U T => exact h
  | like U T =>
    rcases like_cases s U T with hsome | hnone
    · simp only [step, like_of_some s U T hsome]; exact h
    · simp only [step, like_of_none s U T hnone]
      refine pairwise_append_one _ _ _ h ?_
      rintro x hx ⟨hU, hT, hne⟩
      have h1 := hnone x hx
      cases hxp : x.postId with
      | none => exact hne hxp
      | some P =>
        have hT2 : T = some P := by rw [← hxp]; exact hT.symm
        rw [hU, hxp, hT2] at h1
        simp [strictEq] at h1
  | unlike U T =>
    rcases unlike_cases s U T with h1 | ⟨pre, l, post, hlikes, h1⟩
    · simp only [step, h1]; exact h
    · simp only [step, h1]
      unfold LikesUniqueInt at h
      rw [hlikes] at h
      exact pairwise_remove_one _ _ _ _ h
  | addComment U T text now =>
    simp only [step, addComment_fst]; exact h
  | follow U T =>
    rcases follow_cases s U T with h1 | h1 | ⟨_, _, h1⟩
    · simp only [step, h1]; exact h
    · simp only [step, h1]; exact h
    · simp only [step, h1]; exact h
  | unfollow U T =>
    rcases unfollow_cases s U T with h1 | ⟨pre, f, post, _, h1⟩
    · simp only [step, h1]; exact h
    · simp only [step, h1]; exact h
  | profile U T => exact h
  | search U q => exact h

/-- In every store the handlers can reach, whatever the path ids (`NaN` included), at most
one like record has a given user and a given integer post id. -/
theorem likesUniqueInt_reachable (s : Store) (h : Reachable s) : LikesUniqueInt s :=
  reachableVia_induction _ LikesUniqueInt likesUniqueInt_seeded
    (fun s r _ hs => likesUniqueInt_step s r hs) s h

/-- Claim C6. For every store, user `U` and integer post id `P`: the like request answers
400 "Already liked" exactly when a like record `(U, P)` exists, and otherwise appends one
like `(U, P)` with the next id at the end of the likes collection; the unlike request
answers 400 "Not liked" exactly when no such record exists, and otherwise removes the
first matching record and nothing else; a second like right after a successful like
answers 400 "Already liked"; and, in every store the handlers can reach from the seeded
store, a second unlike right after a successful unlike answers 400 "Not liked". -/
theorem like_unlike_contract (s : Store) (U P : Int) :
    ((like s U (some P)).2 = .error ⟨400, "Already liked"⟩ ↔
      ∃ l ∈ s.likes, l.userId = U ∧ l.postId = some P) ∧
    ((¬ ∃ l ∈ s.likes, l.userId = U ∧ l.postId = some P) →
      like s U (some P) =
        ({ s with nextId := s.nextId + 1,
                  likes := s.likes ++ [{ id := s.nextId, userId := U, postId := some P }] },
         .ok ())) ∧
    ((unlike s U (some P)).2 = .error ⟨400, "Not liked"⟩ ↔
      ¬ ∃ l ∈ s.likes, l.userId = U ∧ l.postId = some P) ∧
    ((∃ l ∈ s.likes, l.userId = U ∧ l.postId = some P) →
      ∃ pre l post, s.likes = pre ++ l :: post ∧
        (∀ x ∈ pre, ¬ (x.userId = U ∧ x.postId = some P)) ∧
        (l.userId = U ∧ l.postId = some P) ∧
        unlike s U (some P) = ({ s with likes := pre ++ post }, .ok ())) ∧
    ((like s U (some P)).2 = .ok () →
      (like (like s U (some P)).1 U (some P)).2 = .error ⟨400, "Already liked"⟩) ∧
    (Reachable s → (unlike s U (some P)).2 = .ok () →
      (unlike (unlike s U (some P)).1 U (some P)).2 = .error ⟨400, "Not liked"⟩) := by
  obtain ⟨hex, hnex⟩ := like_test_cases s U P
  have hsplit : (∃ l ∈ s.likes, l.userId = U ∧ l.postId = some P) →
      ∃ pre l post, s.likes = pre ++ l :: post ∧
        (∀ x ∈ pre, ¬ (x.userId = U ∧ x.postId = some P)) ∧
        (l.userId = U ∧ l.postId = some P) ∧
        unlike s U (some P) = ({ s with likes := pre ++ post }, .ok ()) := by
    intro h
    obtain ⟨pre, l, post, hl, hpre, hp, hun⟩ := unlike_of_some s U (some P) (hex.mp h)
    refine ⟨pre, l, post, hl, ?_, (like_test_iff U P l).mp hp, hun⟩
    intro x hx hxp
    have h1 := hpre x hx
    rw [(like_test_iff U P x).mpr hxp] at h1
    cases h1
  refine ⟨?_, ?_, ?_, hsplit, ?_, ?_⟩
  · constructor
    · intro h
      by_contra hno
      rw [like_of_none s U (some P) (hnex.mp hno)] at h
      cases h
    · intro h
      rw [like_of_some s U (some P) (hex.mp h)]
  · intro hno
    exact like_of_none s U (some P) (hnex.mp hno)
  · constructor
    · intro h hsome
      obtain ⟨pre, l, post, _, _, _, hun⟩ := hsplit hsome
      rw [hun] at h
      cases h
    · intro hno
      rw [unlike_of_none s U (some P) (hnex.mp hno)]
  · intro h
    have hno : ∀ l ∈ s.likes, (l.userId == U && strictEq l.postId (some P)) = false := by
      rcases like_cases s U (some P) with hsome | hnone
      · rw [like_of_some s U (some P) hsome] at h
        cases h
      · exact hnone
    rw [like_of_none s U (some P) hno]
    rw [like_of_some]
    exact ⟨{ id := s.nextId, userId := U, postId := some P }, by simp, by simp [strictEq]⟩
  · intro hreach h
    have huniq := likesUniqueInt_reachable s hreach
    have hsome : ∃ l ∈ s.likes, l.userId = U ∧ l.postId = some P := by
      by_contra hno
      rw [unlike_of_none s U (some P) (hnex.mp hno)] at h
      cases h
    obtain ⟨pre, l, post, hl, hpre, hp, hun⟩ := hsplit hsome
    rw [hun, unlike_of_none]
    intro x hx
    rw [Bool.eq_false_iff]
    intro hxp
    have hxp2 := (like_test_iff U P x).mp hxp
    rcases List.mem_append.mp hx with hx1 | hx2
    · exact hpre x hx1 hxp2
    · unfold LikesUniqueInt at huniq
      rw [hl, List.pairwise_append] at huniq
      have := List.rel_of_pairwise_cons huniq.2.1 hx2
      exact this ⟨by rw [hp.1, hxp2.1], by rw [hp.2, hxp2.2], by rw [hp.2]; simp⟩

theorem like_unlike_contract_witness :
    Reachable (step (seeded env0) (.like 2 (some 101))) ∧
    (unlike (step (seeded env0) (.like 2 (some 101))) 2 (some 101)).2 = .ok () ∧
    (unlike (unlike (step (seeded env0) (.like 2 (some 101))) 2 (some 101)).1 2 (some 101)).2 =
      .error ⟨400, "Not liked"⟩ :=
  ⟨.call _ (.seed env0) trivial, rfl,
   (like_unlike_contract (step (seeded env0) (.like 2 (some 101))) 2 101).2.2.2.2.2
     (.call _ (.seed env0) trivial) rfl⟩

/-! ## Record ids -/

theorem reachable_run (s : Store) (rs : List Request) (h : Reachable s) :
    Reachable (run s rs) := by
  induction rs generalizing s with
  | nil => exact h
  | cons r rs ih => exact ih (step s r) (.call r h trivial)

set_option maxRecDepth 100000 in
/-- Claim C9 fails on the code: `seedData` leaves the counter at 4 although it stores
records with ids 101 to 401, so the 98th record created after the seed is given id 101.
After ninety-eight create-post requests by user 1 the post collection holds two different
posts with id 101, the new one by user 1 and the seeded one by user 2. -/
theorem createPost_reuses_id_101 :
    Reachable (run (seeded env0) ninetyEightPosts) ∧
    (run (seeded env0) ninetyEightPosts).nextId = 102 ∧
    ((run (seeded env0) ninetyEightPosts).posts.map (fun p => p.id)).count 101 = 2 ∧
    ∃ p ∈ (run (seeded env0) ninetyEightPosts).posts,
      ∃ q ∈ (run (seeded env0) ninetyEightPosts).posts,
        p.id = 101 ∧ q.id = 101 ∧ p.userId = 1 ∧ q.userId = 2 := by
  refine ⟨reachable_run _ _ (.seed env0), by decide, by decide, ?_⟩
  refine ⟨{ id := 101, userId := 1, imageUrl := "https://example.com/a.png",
            caption := "hello", createdAt := "2024-01-02T00:00:00.000Z" }, by decide,
          { id := 101, userId := 2,
            imageUrl := "https://images.unsplash.com/photo-1506905925346-21bda4d32df4",
            caption := "Mountain adventure! 🏔️", createdAt := "2024-01-01T11:00:00.000Z" },
          by decide, rfl, rfl, rfl, rfl⟩

/-! ## Foreign keys -/

/-- Every handler call leaves the store as it is, or appends one record to one collection
(prepends, for a post) and advances the counter, or removes one like or one follow. -/
theorem step_shape (s : Store) (r : Request) :
    step s r = s ∨
    (∃ username email digest now, (∃ hashed, r = .signup username email hashed now) ∧
      step s r = { s with nextId := s.nextId + 1,
                          users := s.users ++
                            [{ id := s.nextId, username := username, email := email,
                               password := digest, createdAt := some now }] }) ∨
    (∃ U imageUrl caption now, r = .createPost U imageUrl caption now ∧
      step s r = { s with nextId := s.nextId + 1,
                          posts := { id := s.nextId, userId := U, imageUrl := imageUrl,
                                     caption := caption, createdAt := now } :: s.posts }) ∨
    (∃ U T, r = .like U T ∧
      step s r = { s with nextId := s.nextId + 1,
                          likes := s.likes ++ [{ id := s.nextId, userId := U, postId := T }] }) ∨
    (∃ pre l post, s.likes = pre ++ l :: post ∧ step s r = { s with likes := pre ++ post }) ∨
    (∃ U T text now, r = .addComment U T text now ∧
      step s r = { s with nextId := s.nextId + 1,
                          comments := s.comments ++ [{ id := s.nextId, postId := T, userId := U,
                                                       text := text, createdAt := now }] }) ∨
    (∃ U T, r = .follow U T ∧
      step s r = { s with nextId := s.nextId + 1,
                          follows := s.follows ++
                            [{ id := s.nextId, followerId := U, followingId := T }] }) ∨
    (∃ pre f post, s.follows = pre ++ f :: post ∧
      step s r = { s with follows := pre ++ post }) := by
  cases r with
  | signup username email hashed now =>
    rcases signup_cases s username email hashed now with h1 | ⟨_, digest, h1⟩
    · exact Or.inl h1
    · exact Or.inr (Or.inl ⟨username, email, digest, now, ⟨hashed, rfl⟩, h1⟩)
  | login email => exact Or.inl rfl
  | createPost U imageUrl caption now =>
    exact Or.inr (Or.inr (Or.inl ⟨U, imageUrl, caption, now, rfl, rfl⟩))
  | feed U => exact Or.inl rfl
  | userPosts U T => exact Or.inl rfl
  | like U T =>
    rcases like_cases s U T with hsome | hnone
    · left
      simp only [step, like_of_some s U T hsome]
    · right; right; right; left
      exact ⟨U, T, rfl, by simp only [step, like_of_none s U T hnone]⟩
  | unlike U T =>
    rcases unlike_cases s U T with h1 | ⟨pre, l, post, hl, h1⟩
    · left
      simp only [step, h1]
    · right; right; right; right; left
      exact ⟨pre, l, post, hl, by simp only [step, h1]⟩
  | addComment U T text now =>
    right; right; right; right; right; left
    exact ⟨U, T, text, now, rfl, by simp only [step, addComment_fst]⟩
  | follow U T =>
    rcases follow_cases s U T with h1 | h1 | ⟨_, _, h1⟩
    · left
      simp only [step, h1]
    · left
      simp only [step, h1]
    · right; right; right; right; right; right; left
      exact ⟨U, T, rfl, by simp only [step, h1]⟩
  | unfollow U T =>
    rcases unfollow_cases s U T with h1 | ⟨pre, f, post, hf, h1⟩
    · left
      simp only [step, h1]
    · right; right; right; right; right; right; right
      exact ⟨pre, f, post, hf, by simp only [step, h1]⟩
  | profile U T => exact Or.inl rfl
  | search U q => exact Or.inl rfl

theorem mem_of_mem_remove_one {α : Type} (pre post : List α) (a x : α)
    (h : x ∈ pre ++ post) : x ∈ pre ++ a :: post := by
  rcases List.mem_append.mp h with h1 | h1
  · exact List.mem_append_left _ h1
  · exact List.mem_append_right _ (List.mem_cons_of_mem _ h1)

theorem callerRefsExist_seeded (e : SeedEnv) : CallerRefsExist (seeded e) := by
  simp [CallerRefsExist, seeded, seedData, db]

theorem targetRefsExist_seeded (e : SeedEnv) : TargetRefsExist (seeded e) := by
  simp [TargetRefsExist, seeded, seedData, db]

theorem callerRefsExist_step (s : Store) (r : Request) (hr : r.callerExists s)
    (h : CallerRefsExist s) : CallerRefsExist (step s r) := by
  obtain ⟨hp, hl, hc, hf⟩ := h
  rcases step_shape s r with h1 | ⟨un, em, dg, now, _, h1⟩ | ⟨U, iu, cp, now, hreq, h1⟩ |
    ⟨U, T, hreq, h1⟩ | ⟨pre, l, post, hlikes, h1⟩ | ⟨U, T, tx, now, hreq, h1⟩ |
    ⟨U, T, hreq, h1⟩ | ⟨pre, f, post, hfollows, h1⟩
  · rw [h1]; exact ⟨hp, hl, hc, hf⟩
  · rw [h1]
    refine ⟨fun p hm => ?_, fun l hm => ?_, fun c hm => ?_, fun f hm => ?_⟩
    · obtain ⟨u, hu, hid⟩ := hp p hm
      exact ⟨u, List.mem_append_left _ hu, hid⟩
    · obtain ⟨u, hu, hid⟩ := hl l hm
      exact ⟨u, List.mem_append_left _ hu, hid⟩
    · obtain ⟨u, hu, hid⟩ := hc c hm
      exact ⟨u, List.mem_append_left _ hu, hid⟩
    · obtain ⟨u, hu, hid⟩ := hf f hm
      exact ⟨u, List.mem_append_left _ hu, hid⟩
  · rw [h1]
    refine ⟨fun p hm => ?_, hl, hc, hf⟩
    rcases List.mem_cons.mp hm with rfl | hm
    · exact hr U (by rw [hreq]; rfl)
    · exact hp p hm
  · rw [h1]
    refine ⟨hp, fun l hm => ?_, hc, hf⟩
    rcases List.mem_append.mp hm with hm | hm
    · exact hl l hm
    · rw [List.mem_singleton] at hm
      rw [hm]
      exact hr U (by rw [hreq]; rfl)
  · rw [h1]
    refine ⟨hp, fun x hm => hl x ?_, hc, hf⟩
    rw [hlikes]
    exact mem_of_mem_remove_one _ _ _ _ hm
  · rw [h1]
    refine ⟨hp, hl, fun c hm => ?_, hf⟩
    rcases List.mem_append.mp hm with hm | hm
    · exact hc c hm
    · rw [List.mem_singleton] at hm
      rw [hm]
      exact hr U (by rw [hreq]; rfl)
  · rw [h1]
    refine ⟨hp, hl, hc, fun f hm => ?_⟩
    rcases List.mem_append.mp hm with hm | hm
    · exact hf f hm
    · rw [List.mem_singleton] at hm
      rw [hm]
      exact hr U (by rw [hreq]; rfl)
  · rw [h1]
    refine ⟨hp, hl, hc, fun x hm => hf x ?_⟩
    rw [hfollows]
    exact mem_of_mem_remove_one _ _ _ _ hm

theorem targetRefsExist_step (s : Store) (r : Request) (hr : r.targetExists s)
    (h : TargetRefsExist s) : TargetRefsExist (step s r) := by
  obtain ⟨hl, hc, hf⟩ := h
  rcases step_shape s r with h1 | ⟨un, em, dg, now, _, h1⟩ | ⟨U, iu, cp, now, hreq, h1⟩ |
    ⟨U, T, hreq, h1⟩ | ⟨pre, l, post, hlikes, h1⟩ | ⟨U, T, tx, now, hreq, h1⟩ |
    ⟨U, T, hreq, h1⟩ | ⟨pre, f, post, hfollows, h1⟩
  · rw [h1]; exact ⟨hl, hc, hf⟩
  · rw [h1]
    refine ⟨hl, hc, fun f hm => ?_⟩
    obtain ⟨u, hu, hid⟩ := hf f hm
    exact ⟨u, List.mem_append_left _ hu, hid⟩
  · rw [h1]
    refine ⟨fun l hm => ?_, fun c hm => ?_, hf⟩
    · obtain ⟨p, hp, hid⟩ := hl l hm
      exact ⟨p, List.mem_cons_of_mem _ hp, hid⟩
    · obtain ⟨p, hp, hid⟩ := hc c hm
      exact ⟨p, List.mem_cons_of_mem _ hp, hid⟩
  · rw [h1]
    refine ⟨fun l hm => ?_, hc, hf⟩
    rcases List.mem_append.mp hm with hm | hm
    · exact hl l hm
    · rw [List.mem_singleton] at hm
      rw [hm]
      rw [hreq] at hr
      exact hr
  · rw [h1]
    refine ⟨fun x hm => hl x ?_, hc, hf⟩
    rw [hlikes]
    exact mem_of_mem_remove_one _ _ _ _ hm
  · rw [h1]
    refine ⟨hl, fun c hm => ?_, hf⟩
    rcases List.mem_append.mp hm with hm | hm
    · exact hc c hm
    · rw [List.mem_singleton] at hm
      rw [hm]
      rw [hreq] at hr
      exact hr
  · rw [h1]
    refine ⟨hl, hc, fun f hm => ?_⟩
    rcases List.mem_append.mp hm with hm | hm
    · exact hf f hm
    · rw [List.mem_singleton] at hm
      rw [hm]
      rw [hreq] at hr
      exact hr
  · rw [h1]
    refine ⟨hl, hc, fun x hm => hf x ?_⟩
    rw [hfollows]
    exact mem_of_mem_remove_one _ _ _ _ hm

/-- Claim C10 as stated fails: after user 1 likes the post id 999 and a caller with id 77
creates a post, the reachable store holds a like by an existing user whose `postId` is the
id of no post, and a post whose `userId` is the id of no user. -/
theorem dangling_references_reachable :
    ∃ s, Reachable s ∧
      (∃ l ∈ s.likes, (∃ u ∈ s.users, u.id = l.userId) ∧ ∀ p ∈ s.posts, l.postId ≠ some p.id) ∧
      (∃ p ∈ s.posts, ∀ u ∈ s.users, u.id ≠ p.userId) := by
  refine ⟨run (seeded env0) [.like 1 (some 999), .createPost 77 "u" "c" "t"],
    reachable_run _ _ (.seed env0), ?_, ?_⟩
  · refine ⟨{ id := 4, userId := 1, postId := some 999 }, by decide, ?_, by decide⟩
    exact ⟨{ id := 1, username := "john_doe", email := "john@example.com",
             password := env0.hash1, createdAt := none }, by decide, rfl⟩
  · exact ⟨{ id := 5, userId := 77, imageUrl := "u", caption := "c", createdAt := "t" },
      by decide, by decide⟩

/-- Claim C10, amended. In every store reachable from the seeded store by handler calls
whose authenticated caller is an existing user, the `userId` of every post, like and comment
and the `followerId` of every follow are ids of existing users. If in addition every like
and comment request names an existing post and every follow request names an existing
user, then the `postId` of every like and comment is the id of an existing post and the
`followingId` of every follow is the id of an existing user. -/
theorem foreign_keys_invariant :
    (∀ s, ReachableVia (fun s r => Request.callerExists s r) s → CallerRefsExist s) ∧
    (∀ s, ReachableVia (fun s r => Request.callerExists s r ∧ Request.targetExists s r) s →
      CallerRefsExist s ∧ TargetRefsExist s) :=
  ⟨reachableVia_induction _ _ callerRefsExist_seeded callerRefsExist_step,
   reachableVia_induction _ (fun s => CallerRefsExist s ∧ TargetRefsExist s)
     (fun e => ⟨callerRefsExist_seeded e, targetRefsExist_seeded e⟩)
     (fun s r hr hs => ⟨callerRefsExist_step s r hr.1 hs.1, targetRefsExist_step s r hr.2 hs.2⟩)⟩

theorem like_request_allowed :
    Request.callerExists (seeded env0) (.like 2 (some 103)) ∧
    Request.targetExists (seeded env0) (.like 2 (some 103)) := by
  constructor
  · intro u hu
    cases hu
    simp [seeded, seedData, db]
  · simp [Request.targetExists, seeded, seedData, db]

theorem foreign_keys_invariant_witness :
    ReachableVia (fun s r => Request.callerExists s r ∧ Request.targetExists s r)
        (step (seeded env0) (.like 2 (some 103))) ∧
      CallerRefsExist (step (seeded env0) (.like 2 (some 103))) ∧
      TargetRefsExist (step (seeded env0) (.like 2 (some 103))) :=
  ⟨.call _ (.seed env0) like_request_allowed,
   foreign_keys_invariant.2 _ (.call _ (.seed env0) like_request_allowed)⟩

/-! ## Failing requests -/

/-- The handlers that check before they assign return the store they received whenever
they answer with an error. -/
theorem checked_handlers_error_unchanged (s : Store) :
    (∀ username email hashed now e,
      (signup s username email hashed now).2 = .error e →
        (signup s username email hashed now).1 = s) ∧
    (∀ U T e, (like s U T).2 = .error e → (like s U T).1 = s) ∧
    (∀ U T e, (unlike s U T).2 = .error e → (unlike s U T).1 = s) ∧
    (∀ U T e, (follow s U T).2 = .error e → (follow s U T).1 = s) ∧
    (∀ U T e, (unfollow s U T).2 = .error e → (unfollow s U T).1 = s) := by
  refine ⟨?_, ?_, ?_, ?_, ?_⟩
  · intro username email hashed now e h
    unfold signup at h ⊢
    split
    · rfl
    · rename_i hex
      simp only [hex] at h
      cases hashed with
      | error m => rfl
      | ok digest => cases h
  · intro U T e h
    rcases like_cases s U T with hsome | hnone
    · rw [like_of_some s U T hsome]
    · rw [like_of_none s U T hnone] at h
      cases h
  · intro U T e h
    rcases unlike_cases s U T with h1 | ⟨pre, l, post, _, h1⟩
    · rw [h1]
    · rw [h1] at h
      cases h
  · intro U T e h
    rcases follow_cases s U T with h1 | h1 | ⟨_, _, h1⟩
    · rw [h1]
    · rw [h1]
    · rw [h1] at h
      cases h
  · intro U T e h
    rcases unfollow_cases s U T with h1 | ⟨pre, f, post, _, h1⟩
    · rw [h1]
    · rw [h1] at h
      cases h

/-- Claim C11 fails on the code: the comment handler stores the comment and advances the
counter before it looks the caller up, so for a caller id without a user record (here 77,
on the seeded store) it answers 500 although the store now holds the new comment 4 and
`nextId = 5`; the feed of user 1, which shows post 101, answers 500 from then on. -/
theorem addComment_error_after_append :
    addComment (seeded env0) 77 (some 101) "hi" "2024-01-02T00:00:00.000Z" =
      ({ seeded env0 with
          nextId := 5,
          comments := (seeded env0).comments ++
            [{ id := 4, postId := some 101, userId := 77, text := "hi",
               createdAt := "2024-01-02T00:00:00.000Z" }] },
       .error ⟨500, undefinedId⟩) ∧
    (addComment (seeded env0) 77 (some 101) "hi" "2024-01-02T00:00:00.000Z").1 ≠ seeded env0 ∧
    feed (addComment (seeded env0) 77 (some 101) "hi" "2024-01-02T00:00:00.000Z").1 1 =
      .error ⟨500, undefinedId⟩ := by
  refine ⟨rfl, ?_, rfl⟩
  intro h
  have h2 := congrArg Store.nextId h
  revert h2
  decide

/-! ## Profiles -/

theorem find?_eq_some_of_split {α : Type} (p : α → Bool) (pre post : List α) (a : α)
    (hpre : ∀ x ∈ pre, p x = false) (ha : p a = true) :
    (pre ++ a :: post).find? p = some a := by
  induction pre with
  | nil => simp [List.find?, ha]
  | cons x xs ih =>
    have hx : p x = false := hpre x (List.mem_cons_self _ _)
    simp only [List.cons_append, List.find?, hx]
    exact ih (fun y hy => hpre y (List.mem_cons_of_mem _ hy))

theorem split_of_mem {α : Type} (p : α → Bool) (l : List α) (h : ∃ x ∈ l, p x = true) :
    ∃ pre a post, l = pre ++ a :: post ∧ (∀ x ∈ pre, p x = false) ∧ p a = true := by
  obtain ⟨i, hi⟩ := findIdx?_some_of_mem p l h
  obtain ⟨pre, a, post, hl, hpre, ha, _⟩ := findIdx?_some_split p l i hi
  exact ⟨pre, a, post, hl, hpre, ha⟩

/-- Claim C12. For every store, viewer `V` and integer target id `T`: the profile handler
answers 404 "User not found" exactly when no user has id `T`; otherwise it answers with
the id, username and email of the first user with id `T`, the number of follow records
with `followingId = T`, the number with `followerId = T`, the number of posts with
`userId = T`, `isFollowing` true exactly when a follow record `(V, T)` exists, and
`isOwnProfile` true exactly when `V = T`; the store is not changed. -/
theorem profile_contract (s : Store) (V T : Int) :
    (profile s V (some T) = .error ⟨404, "User not found"⟩ ↔ ∀ u ∈ s.users, u.id ≠ T) ∧
    ((∃ u ∈ s.users, u.id = T) →
      ∃ pre u post, s.users = pre ++ u :: post ∧ (∀ x ∈ pre, x.id ≠ T) ∧ u.id = T ∧
        ∃ p, profile s V (some T) = .ok p ∧
          p.id = u.id ∧ p.username = u.username ∧ p.email = u.email ∧
          p.followers = s.follows.countP (fun f => decide (f.followingId = some T)) ∧
          p.following = s.follows.countP (fun f => decide (f.followerId = T)) ∧
          p.posts = s.posts.countP (fun q => decide (q.userId = T)) ∧
          (p.isFollowing = true ↔
            ∃ f ∈ s.follows, f.followerId = V ∧ f.followingId = some T) ∧
          (p.isOwnProfile = true ↔ V = T)) ∧
    step s (.profile V (some T)) = s := by
  have hsome : (∃ u ∈ s.users, u.id = T) →
      ∃ pre u post, s.users = pre ++ u :: post ∧ (∀ x ∈ pre, x.id ≠ T) ∧ u.id = T ∧
        ∃ p, profile s V (some T) = .ok p ∧
          p.id = u.id ∧ p.username = u.username ∧ p.email = u.email ∧
          p.followers = s.follows.countP (fun f => decide (f.followingId = some T)) ∧
          p.following = s.follows.countP (fun f => decide (f.followerId = T)) ∧
          p.posts = s.posts.countP (fun q => decide (q.userId = T)) ∧
          (p.isFollowing = true ↔
            ∃ f ∈ s.follows, f.followerId = V ∧ f.followingId = some T) ∧
          (p.isOwnProfile = true ↔ V = T) := by
    rintro ⟨u0, hu0, hid0⟩
    obtain ⟨pre, u, post, hl, hpre, hu⟩ := split_of_mem
      (fun u : User => strictEq (some u.id) (some T)) s.users
      ⟨u0, hu0, by simp [strictEq, hid0]⟩
    have hfind : s.users.find? (fun u => strictEq (some u.id) (some T)) = some u := by
      rw [hl]
      exact find?_eq_some_of_split _ pre post u hpre hu
    have huT : u.id = T := by simpa [strictEq] using hu
    refine ⟨pre, u, post, hl, ?_, huT, ?_⟩
    · intro x hx hxT
      have := hpre x hx
      simp [strictEq, hxT] at this
    · unfold profile
      rw [hfind]
      have h1 : s.follows.filter (fun f => strictEq f.followingId (some T)) =
          s.follows.filter (fun f => decide (f.followingId = some T)) := by
        apply List.filter_congr
        intro f _
        rw [Bool.eq_iff_iff, strictEq_some_right]
        simp
      have h2 : s.follows.filter (fun f => strictEq (some f.followerId) (some T)) =
          s.follows.filter (fun f => decide (f.followerId = T)) := by
        apply List.filter_congr
        intro f _
        rw [Bool.eq_iff_iff, strictEq_some_right]
        simp
      have h3 : s.posts.filter (fun q => strictEq (some q.userId) (some T)) =
          s.posts.filter (fun q => decide (q.userId = T)) := by
        apply List.filter_congr
        intro q _
        rw [Bool.eq_iff_iff, strictEq_some_right]
        simp
      refine ⟨_, rfl, rfl, rfl, rfl, ?_, ?_, ?_, ?_, ?_⟩
      · dsimp only
        rw [h1, List.countP_eq_length_filter]
      · dsimp only
        rw [h2, List.countP_eq_length_filter]
      · dsimp only
        rw [h3, List.countP_eq_length_filter]
      · simp only [List.any_eq_true, Bool.and_eq_true, beq_iff_eq, strictEq_some_right]
      · simp only [strictEq_some_right, Option.some.injEq]
  refine ⟨?_, hsome, rfl⟩
  constructor
  · intro h u hu hid
    obtain ⟨_, _, _, _, _, _, p, hp, _⟩ := hsome ⟨u, hu, hid⟩
    rw [hp] at h
    cases h
  · intro h
    have hnone : s.users.find? (fun u => strictEq (some u.id) (some T)) = none := by
      rw [List.find?_eq_none]
      intro u hu hp
      exact h u hu (by simpa [strictEq] using hp)
    unfold profile
    rw [hnone]

theorem user2_seeded : ∃ u ∈ (seeded env0).users, u.id = 2 := by
  simp [seeded, seedData, db]

theorem profile_contract_witness :
    (∃ u ∈ (seeded env0).users, u.id = 2) ∧
    ∃ pre u post, (seeded env0).users = pre ++ u :: post ∧ (∀ x ∈ pre, x.id ≠ 2) ∧ u.id = 2 ∧
      ∃ p, profile (seeded env0) 1 (some 2) = .ok p ∧
        p.id = u.id ∧ p.username = u.username ∧ p.email = u.email ∧
        p.followers = (seeded env0).follows.countP (fun f => decide (f.followingId = some 2)) ∧
        p.following = (seeded env0).follows.countP (fun f => decide (f.followerId = 2)) ∧
        p.posts = (seeded env0).posts.countP (fun q => decide (q.userId = 2)) ∧
        (p.isFollowing = true ↔
          ∃ f ∈ (seeded env0).follows, f.followerId = 1 ∧ f.followingId = some 2) ∧
        (p.isOwnProfile = true ↔ (1 : Int) = 2) :=
  ⟨user2_seeded, (profile_contract (seeded env0) 1 2).2.1 user2_seeded⟩

theorem noSelfFollow_seeded (e : SeedEnv) : NoSelfFollow (seeded e) := by
  simp [NoSelfFollow, seeded, seedData, db]

theorem noSelfFollow_step (s : Store) (r : Request) (h : NoSelfFollow s) :
    NoSelfFollow (step s r) := by
  cases r with
  | signup username email hashed now =>
    rcases signup_cases s username email hashed now with h1 | ⟨_, digest, h1⟩
    · simp only [step, h1]; exact h
    · simp only [step, h1]; exact h
  | login email => exact h
  | createPost U imageUrl caption now => exact h
  | feed U => exact h
  | userPosts U T => exact h
  | like U T =>
    rcases like_cases s U T with hsome | hnone
    · simp only [step, like_of_some s U T hsome]; exact h
    · simp only [step, like_of_none s U T hnone]; exact h
  | unlike U T =>
    rcases unlike_cases s U T with h1 | ⟨pre, l, post, _, h1⟩
    · simp only [step, h1]; exact h
    · simp only [step, h1]; exact h
  | addComment U T text now =>
    simp only [step, addComment_fst]; exact h
  | follow U T =>
    rcases follow_cases s U T with h1 | h1 | ⟨hne, _, h1⟩
    · simp only [step, h1]; exact h
    · simp only [step, h1]; exact h
    · simp only [step, h1]
      intro f hmem
      rcases List.mem_append.mp hmem with hin | hnew
      · exact h f hin
      · rw [List.mem_singleton] at hnew
        rw [hnew]
        exact hne
  | unfollow U T =>
    rcases unfollow_cases s U T with h1 | ⟨pre, f, post, hfollows, h1⟩
    · simp only [step, h1]; exact h
    · simp only [step, h1]
      intro g hg
      apply h g
      rw [hfollows]
      exact mem_of_mem_remove_one _ _ _ _ hg
  | profile U T => exact h
  | search U q => exact h

/-- Claim C13. In every store reachable from the seeded store by handler calls, no follow
record leads from a user to that same user; so a profile requested by a viewer for their
own id has `isFollowing = false`, and no profile answer has both `isOwnProfile = true` and
`isFollowing = true`, whatever the path id. -/
theorem own_profile_not_following (s : Store) (h : Reachable s) :
    NoSelfFollow s ∧
    (∀ V p, profile s V (some V) = .ok p → p.isFollowing = false) ∧
    (∀ V T p, profile s V T = .ok p → ¬ (p.isOwnProfile = true ∧ p.isFollowing = true)) := by
  have hinv : NoSelfFollow s :=
    reachableVia_induction _ NoSelfFollow noSelfFollow_seeded
      (fun s r _ hs => noSelfFollow_step s r hs) s h
  have hgen : ∀ V T p, profile s V T = .ok p →
      ¬ (p.isOwnProfile = true ∧ p.isFollowing = true) := by
    intro V T p hp
    unfold profile at hp
    split at hp
    · cases hp
    · cases hp
      rintro ⟨hown, hfol⟩
      dsimp only at hown hfol
      have hT : T = some V := (strictEq_some_left V T).mp hown
      rw [List.any_eq_true] at hfol
      obtain ⟨f, hf, hpf⟩ := hfol
      simp only [Bool.and_eq_true, beq_iff_eq] at hpf
      rw [hT, strictEq_some_right] at hpf
      exact hinv f hf (by rw [hpf.2, hpf.1])
  refine ⟨hinv, ?_, hgen⟩
  intro V p hp
  have hown : p.isOwnProfile = true := by
    unfold profile at hp
    split at hp
    · cases hp
    · cases hp
      simp [strictEq]
  have := hgen V (some V) p hp
  cases hfol : p.isFollowing with
  | false => rfl
  | true => exact absurd ⟨hown, hfol⟩ this

theorem own_profile_not_following_witness :
    Reachable (step (seeded env0) (.follow 2 (some 1))) ∧
    ∃ p, profile (step (seeded env0) (.follow 2 (some 1))) 2 (some 2) = .ok p ∧
      p.isOwnProfile = true ∧ p.isFollowing = false :=
  ⟨.call _ (.seed env0) trivial, _, rfl, rfl,
   (own_profile_not_following (step (seeded env0) (.follow 2 (some 1)))
     (.call _ (.seed env0) trivial)).2.1 2 _ rfl⟩

/-! ## Search -/

theorem includes_iff (s q : String) : includes s q = true ↔ q.data <:+: s.data := by
  unfold includes
  rw [List.any_eq_true, List.infix_iff_prefix_suffix]
  constructor
  · rintro ⟨t, ht, hp⟩
    exact ⟨t, List.isPrefixOf_iff_prefix.mp hp, (List.mem_tails _ _).mp ht⟩
  · rintro ⟨t, hp, ht⟩
    exact ⟨t, (List.mem_tails _ _).mpr ht, List.isPrefixOf_iff_prefix.mpr hp⟩

theorem filterThrow_ok_of {α : Type} (f : α → Except String Bool) (g : α → Bool)
    (xs : List α) (h : ∀ x ∈ xs, f x = .ok (g x)) :
    filterThrow f xs = .ok (xs.filter g) := by
  induction xs with
  | nil => rfl
  | cons x xs ih =>
    have hx := h x (List.mem_cons_self _ _)
    have hxs := ih (fun y hy => h y (List.mem_cons_of_mem _ hy))
    simp only [filterThrow, hx, hxs, List.filter]
    cases g x <;> rfl

theorem lowersAscii_asciiLower : LowersAscii asciiLower := fun _ _ => rfl

theorem usernamesPresent_seeded (e : SeedEnv) : UsernamesPresent (seeded e) := by
  simp [UsernamesPresent, seeded, seedData, db]

/-- Claim C14 as stated fails: the signup handler stores the body as it came, so after a
signup without username the store holds a user record on which `u.username.toLowerCase()`
throws, and the search of user 1 for "jane" answers 500 instead of a result list. -/
theorem search_fails_without_username :
    Reachable (step (seeded env0)
      (.signup none "eve@example.com" (.ok "$2a$10$d") "2024-01-02T00:00:00.000Z")) ∧
    search asciiLower (step (seeded env0)
      (.signup none "eve@example.com" (.ok "$2a$10$d") "2024-01-02T00:00:00.000Z")) 1 "jane" =
      .error ⟨500, undefinedToLowerCase⟩ :=
  ⟨.call _ (.seed env0) trivial, rfl⟩

/-- Claim C14, amended. For every store in which every user record has a username,
searching user `S` and query `q`, the search handler answers, in the order of the user
collection, with the id, username and email of exactly the users whose lower-cased
username contains the lower-cased query as a contiguous substring and whose id is not `S`
(the summary has no password field), and the store is not changed. With a `toLowerCase`
that lowers the letters `A` to `Z` on ASCII strings, two ASCII queries that differ only in
letter case get the same answer, and on the seeded store the queries "jane" and "JaNe" of
user 1 both give the single result `2, jane_smith, jane@example.com`. -/
theorem search_contract (toLowerCase : String → String) (s : Store) (S : Int) (q : String) :
    (UsernamesPresent s →
      search toLowerCase s S q =
        .ok ((s.users.filter (fun u => decide (SearchHit toLowerCase q S u))).map
          (fun u => { id := u.id, username := u.username, email := u.email }))) ∧
    step s (.search S q) = s ∧
    (LowersAscii toLowerCase →
      (∀ q2 : String, (∀ c ∈ q.data, c.val < 128) → (∀ c ∈ q2.data, c.val < 128) →
        asciiLower q = asciiLower q2 →
        search toLowerCase s S q = search toLowerCase s S q2) ∧
      ∀ e,
        search toLowerCase (seeded e) 1 "jane" =
          .ok [{ id := 2, username := some "jane_smith", email := "jane@example.com" }] ∧
        search toLowerCase (seeded e) 1 "JaNe" =
          .ok [{ id := 2, username := some "jane_smith", email := "jane@example.com" }]) := by
  refine ⟨?_, rfl, ?_⟩
  · intro hnames
    have hfilter : filterThrow (fun u : User =>
          match u.username with
          | none => .error undefinedToLowerCase
          | some username =>
            .ok (includes (toLowerCase username) (toLowerCase q) && u.id != S)) s.users =
        .ok (s.users.filter (fun u => decide (SearchHit toLowerCase q S u))) := by
      apply filterThrow_ok_of
      intro u hu
      cases hname : u.username with
      | none => exact absurd hname (hnames u hu)
      | some name =>
        simp only []
        congr 1
        rw [Bool.eq_iff_iff]
        simp only [Bool.and_eq_true, includes_iff, bne_iff_ne, ne_eq, decide_eq_true_eq,
          SearchHit, hname, Option.some.injEq]
        constructor
        · intro hx
          exact ⟨name, rfl, hx⟩
        · rintro ⟨n, hn, hx⟩
          rw [hn]
          exact hx
    unfold search
    simp only [hfilter]
  · intro hlow
    constructor
    · intro q2 hq hq2 heq
      have h1 : toLowerCase q = toLowerCase q2 := by
        rw [hlow q hq, hlow q2 hq2, heq]
      unfold search
      simp only [h1]
    · intro e
      have h1 : toLowerCase "jane" = "jane" := by
        rw [hlow "jane" (by decide)]; decide
      have h1b : toLowerCase "JaNe" = "jane" := by
        rw [hlow "JaNe" (by decide)]; decide
      have h2 : toLowerCase "john_doe" = "john_doe" := by
        rw [hlow "john_doe" (by decide)]; decide
      have h3 : toLowerCase "jane_smith" = "jane_smith" := by
        rw [hlow "jane_smith" (by decide)]; decide
      have h4 : toLowerCase "bob_wilson" = "bob_wilson" := by
        rw [hlow "bob_wilson" (by decide)]; decide
      constructor
      · simp only [search, seeded, seedData, db, List.nil_append, filterThrow, h1, h2, h3, h4]
        rfl
      · simp only [search, seeded, seedData, db, List.nil_append, filterThrow, h1b, h2, h3, h4]
        rfl

theorem search_contract_witness :
    UsernamesPresent (seeded env0) ∧ LowersAscii asciiLower ∧
    search asciiLower (seeded env0) 1 "JaNe" =
      .ok ((((seeded env0).users.filter
          (fun u => decide (SearchHit asciiLower "JaNe" 1 u))).map
        (fun u => { id := u.id, username := u.username, email := u.email }))) ∧
    search asciiLower (seeded env0) 1 "JaNe" =
      .ok [{ id := 2, username := some "jane_smith", email := "jane@example.com" }] ∧
    search asciiLower (step (seeded env0)
        (.signup (some "JANE_Doe") "jd@example.com" (.ok "$2a$10$d")
          "2024-01-02T00:00:00.000Z")) 3 "jAnE" =
      .ok [{ id := 2, username := some "jane_smith", email := "jane@example.com" },
           { id := 4, username := some "JANE_Doe", email := "jd@example.com" }] :=
  ⟨usernamesPresent_seeded env0, lowersAscii_asciiLower,
   (search_contract asciiLower (seeded env0) 1 "JaNe").1 (usernamesPresent_seeded env0),
   (((search_contract asciiLower (seeded env0) 1 "JaNe").2.2 lowersAscii_asciiLower).2 env0).2,
   rfl⟩

/-! ## Creating a post -/

theorem feed_unfold (s : Store) (V : Int) :
    feed s V =
      match mapThrow (enrich s V) (s.posts.filter (fun p => decide (InFeedOf s V p))) with
      | .error m => .error ⟨500, m⟩
      | .ok enrichedPosts => .ok enrichedPosts := by
  have hfilter : s.posts.filter (fun p =>
      ((((s.follows.filter (fun f => f.followerId == V)).map (fun f => f.followingId))
        ++ [some V]).contains (some p.userId))) =
      s.posts.filter (fun p => decide (InFeedOf s V p)) := by
    apply List.filter_congr
    intro p _
    rw [Bool.eq_iff_iff, following_contains_iff]
    simp
  unfold feed
  simp only [hfilter]

theorem mapThrow_of_feed_ok (s : Store) (V : Int) (items : List FeedPost)
    (h : feed s V = .ok items) :
    mapThrow (enrich s V) (s.posts.filter (fun p => decide (InFeedOf s V p))) = .ok items := by
  rw [feed_unfold] at h
  cases hm : mapThrow (enrich s V) (s.posts.filter (fun p => decide (InFeedOf s V p))) with
  | error m => rw [hm] at h; cases h
  | ok xs => rw [hm] at h; cases h; rfl

/-- The `map` callback of the feed reads the users, likes and comments only. -/
theorem enrich_congr (s t : Store) (hu : t.users = s.users) (hl : t.likes = s.likes)
    (hc : t.comments = s.comments) (V : Int) : enrich t V = enrich s V := by
  funext p
  unfold enrich
  rw [hu, hl, hc]

/-- The feed of the author right after a post was created: the item of the new post,
then the items of the feed before the call. -/
theorem feed_after_createPost (s : Store) (A : Int) (imageUrl caption now : String)
    (hA : ∃ u ∈ s.users, u.id = A) (h : AuthorsExist s) :
    ∃ item items, feed s A = .ok items ∧
      enrich s A { id := s.nextId, userId := A, imageUrl := imageUrl, caption := caption,
                   createdAt := now } = .ok item ∧
      feed (createPost s A imageUrl caption now).1 A = .ok (item :: items) := by
  obtain ⟨items, hfeed, _⟩ := feed_ok s A h
  have hmap := mapThrow_of_feed_ok s A items hfeed
  have hauth : AuthorsExist (createPost s A imageUrl caption now).1 := by
    refine ⟨?_, h.2⟩
    intro p hp
    rcases List.mem_cons.mp hp with rfl | hp
    · exact hA
    · exact h.1 p hp
  obtain ⟨item, hitem⟩ := enrich_ok_of (createPost s A imageUrl caption now).1 A
    { id := s.nextId, userId := A, imageUrl := imageUrl, caption := caption, createdAt := now }
    hauth (List.mem_cons_self _ _)
  have hen : enrich (createPost s A imageUrl caption now).1 A = enrich s A :=
    enrich_congr s _ rfl rfl rfl A
  rw [hen] at hitem
  refine ⟨item, items, hfeed, hitem, ?_⟩
  rw [feed_unfold, hen]
  have hfilter : (createPost s A imageUrl caption now).1.posts.filter
      (fun p => decide (InFeedOf (createPost s A imageUrl caption now).1 A p)) =
      { id := s.nextId, userId := A, imageUrl := imageUrl, caption := caption,
        createdAt := now } :: s.posts.filter (fun p => decide (InFeedOf s A p)) := by
    show List.filter _ (_ :: s.posts) = _
    rw [List.filter_cons_of_pos]
    · rfl
    · exact decide_eq_true (Or.inl rfl)
  rw [hfilter]
  simp only [mapThrow, hitem, hmap]

/-- Claim C15. Create Post always succeeds: it answers with the new post, whose id is the
value of `nextId` before the call, advances the counter, and puts the new post in front of
the unchanged post collection. When the caller is an existing user and every post and
comment author exists, the feed of the caller after the call is an item carrying the new
post, followed by the feed the caller had before the call. -/
theorem createPost_contract (s : Store) (A : Int) (imageUrl caption now : String) :
    createPost s A imageUrl caption now =
      ({ s with nextId := s.nextId + 1,
                posts := { id := s.nextId, userId := A, imageUrl := imageUrl,
                           caption := caption, createdAt := now } :: s.posts },
       .ok { id := s.nextId, userId := A, imageUrl := imageUrl, caption := caption,
             createdAt := now }) ∧
    ((∃ u ∈ s.users, u.id = A) → AuthorsExist s →
      ∃ item items, feed s A = .ok items ∧
        feed (createPost s A imageUrl caption now).1 A = .ok (item :: items) ∧
        item.toPost = { id := s.nextId, userId := A, imageUrl := imageUrl,
                        caption := caption, createdAt := now }) := by
  refine ⟨rfl, ?_⟩
  intro hA h
  obtain ⟨item, items, hfeed, hitem, hafter⟩ := feed_after_createPost s A imageUrl caption now hA h
  exact ⟨item, items, hfeed, hafter, (enrich_ok_inv s A _ item hitem).1⟩

theorem user1_seeded : ∃ u ∈ (seeded env0).users, u.id = 1 := by
  simp [seeded, seedData, db]

theorem createPost_contract_witness :
    (∃ u ∈ (seeded env0).users, u.id = 1) ∧ AuthorsExist (seeded env0) ∧
    ∃ item items, feed (seeded env0) 1 = .ok items ∧
      feed (createPost (seeded env0) 1 "u" "c" "t").1 1 = .ok (item :: items) ∧
      item.toPost = { id := (seeded env0).nextId, userId := 1, imageUrl := "u",
                      caption := "c", createdAt := "t" } :=
  ⟨user1_seeded, authorsExist_seeded env0,
   (createPost_contract (seeded env0) 1 "u" "c" "t").2 user1_seeded (authorsExist_seeded env0)⟩

/-! ## The feed on reachable stores -/

theorem authorsExist_of_callerRefs (s : Store) (h : CallerRefsExist s) : AuthorsExist s :=
  ⟨h.1, h.2.2.1⟩

theorem postRefsExist_seeded (e : SeedEnv) : PostRefsExist (seeded e) := by
  simp [PostRefsExist, seeded, seedData, db]

theorem postRefsExist_step (s : Store) (r : Request) (hr : r.postExists s)
    (h : PostRefsExist s) : PostRefsExist (step s r) := by
  obtain ⟨hl, hc⟩ := h
  rcases step_shape s r with h1 | ⟨un, em, dg, now, _, h1⟩ | ⟨U, iu, cp, now, hreq, h1⟩ |
    ⟨U, T, hreq, h1⟩ | ⟨pre, l, post, hlikes, h1⟩ | ⟨U, T, tx, now, hreq, h1⟩ |
    ⟨U, T, hreq, h1⟩ | ⟨pre, f, post, hfollows, h1⟩
  · rw [h1]; exact ⟨hl, hc⟩
  · rw [h1]; exact ⟨hl, hc⟩
  · rw [h1]
    refine ⟨fun l hm => ?_, fun c hm => ?_⟩
    · obtain ⟨p, hp, hid⟩ := hl l hm
      exact ⟨p, List.mem_cons_of_mem _ hp, hid⟩
    · obtain ⟨p, hp, hid⟩ := hc c hm
      exact ⟨p, List.mem_cons_of_mem _ hp, hid⟩
  · rw [h1]
    refine ⟨fun l hm => ?_, hc⟩
    rcases List.mem_append.mp hm with hm | hm
    · exact hl l hm
    · rw [List.mem_singleton] at hm
      rw [hm]
      rw [hreq] at hr
      exact hr
  · rw [h1]
    refine ⟨fun x hm => hl x ?_, hc⟩
    rw [hlikes]
    exact mem_of_mem_remove_one _ _ _ _ hm
  · rw [h1]
    refine ⟨hl, fun c hm => ?_⟩
    rcases List.mem_append.mp hm with hm | hm
    · exact hc c hm
    · rw [List.mem_singleton] at hm
      rw [hm]
      rw [hreq] at hr
      exact hr
  · rw [h1]; exact ⟨hl, hc⟩
  · rw [h1]; exact ⟨hl, hc⟩

theorem like_by_user1_allowed (P : Int) :
    Request.callerExists (seeded env0) (.like 1 (some P)) := by
  intro u hu
  cases hu
  simp [seeded, seedData, db]

/-- Claim C16 as stated fails: after the existing user 1 has liked the post id 5, which no
post has yet, the post that user 1 creates next is given id 5 and appears in the feed of
user 1 with `likesCount = 1` and `isLiked = true`. -/
theorem new_post_shows_earlier_like :
    ∃ s, ReachableVia (fun s r => Request.callerExists s r) s ∧
      (∃ u ∈ s.users, u.id = 1) ∧
      ∃ item items, feed (createPost s 1 "u" "c" "t").1 1 = .ok (item :: items) ∧
        item.toPost = { id := s.nextId, userId := 1, imageUrl := "u", caption := "c",
                        createdAt := "t" } ∧
        item.likesCount = 1 ∧ item.isLiked = true :=
  ⟨step (seeded env0) (.like 1 (some 5)), .call _ (.seed env0) (like_by_user1_allowed 5),
    user1_seeded, _, _, rfl, rfl, rfl, rfl⟩

/-- Claim C16, amended. In every store reachable from the seeded store by handler calls
made by existing users in which every like and comment request names an existing post,
and in which no post has the current value of `nextId` as its id, a post that an existing
user `A` has just created is the first item of the feed of `A`, with `likesCount = 0`,
`isLiked = false` and no comments. -/
theorem new_post_in_feed (s : Store)
    (h : ReachableVia (fun s r => Request.callerExists s r ∧ Request.postExists s r) s)
    (hfresh : ∀ p ∈ s.posts, p.id ≠ s.nextId)
    (A : Int) (hA : ∃ u ∈ s.users, u.id = A) (imageUrl caption now : String) :
    ∃ item items, feed (createPost s A imageUrl caption now).1 A = .ok (item :: items) ∧
      item.toPost = { id := s.nextId, userId := A, imageUrl := imageUrl, caption := caption,
                      createdAt := now } ∧
      item.likesCount = 0 ∧ item.isLiked = false ∧ item.comments = [] := by
  have hinv : CallerRefsExist s ∧ PostRefsExist s :=
    reachableVia_induction _ (fun s => CallerRefsExist s ∧ PostRefsExist s)
      (fun e => ⟨callerRefsExist_seeded e, postRefsExist_seeded e⟩)
      (fun s r hr hs => ⟨callerRefsExist_step s r hr.1 hs.1, postRefsExist_step s r hr.2 hs.2⟩)
      s h
  obtain ⟨item, items, _, hitem, hafter⟩ :=
    feed_after_createPost s A imageUrl caption now hA (authorsExist_of_callerRefs s hinv.1)
  obtain ⟨h1, _, h3, h4, h5⟩ := enrich_ok_inv s A _ item hitem
  have hlikes : s.likes.filter (fun l => strictEq l.postId (some s.nextId)) = [] := by
    rw [List.filter_eq_nil_iff]
    intro l hl hp
    obtain ⟨p, hp1, hp2⟩ := hinv.2.1 l hl
    rw [strictEq_some_right, hp2] at hp
    exact hfresh p hp1 (Option.some.inj hp)
  have hcomments : s.comments.filter (fun c => strictEq c.postId (some s.nextId)) = [] := by
    rw [List.filter_eq_nil_iff]
    intro c hc hp
    obtain ⟨p, hp1, hp2⟩ := hinv.2.2 c hc
    rw [strictEq_some_right, hp2] at hp
    exact hfresh p hp1 (Option.some.inj hp)
  refine ⟨item, items, hafter, h1, ?_, ?_, ?_⟩
  · rw [h3]
    show (s.likes.filter (fun l => strictEq l.postId (some s.nextId))).length = 0
    rw [hlikes]
    rfl
  · rw [h4]
    show (s.likes.filter (fun l => strictEq l.postId (some s.nextId))).any _ = false
    rw [hlikes]
    rfl
  · have h5b : List.Forall₂ _ (s.comments.filter
        (fun c => strictEq c.postId (some s.nextId))) item.comments := h5
    rw [hcomments] at h5b
    exact List.forall₂_nil_left_iff.mp h5b

theorem new_post_in_feed_witness :
    ReachableVia (fun s r => Request.callerExists s r ∧ Request.postExists s r)
      (seeded env0) ∧
    (∀ p ∈ (seeded env0).posts, p.id ≠ (seeded env0).nextId) ∧
    (∃ u ∈ (seeded env0).users, u.id = 1) ∧
    ∃ item items, feed (createPost (seeded env0) 1 "u" "c" "t").1 1 = .ok (item :: items) ∧
      item.toPost = { id := (seeded env0).nextId, userId := 1, imageUrl := "u",
                      caption := "c", createdAt := "t" } ∧
      item.likesCount = 0 ∧ item.isLiked = false ∧ item.comments = [] :=
  ⟨.seed env0, by decide, user1_seeded,
   new_post_in_feed (seeded env0) (.seed env0) (by decide) 1 user1_seeded "u" "c" "t"⟩

/-- Claim C17. In every store reachable from the seeded store by handler calls whose
authenticated caller is a user existing at the time of the call, the author lookup finds
a user for every post and for every comment, so the feed handler answers every viewer
with a list and never with status 500. -/
theorem feed_never_fails (s : Store)
    (h : ReachableVia (fun s r => Request.callerExists s r) s) :
    (∀ p ∈ s.posts, (s.users.find? (fun u => u.id == p.userId)).isSome = true) ∧
    (∀ c ∈ s.comments, (s.users.find? (fun u => u.id == c.userId)).isSome = true) ∧
    (∀ V, ∃ items, feed s V = .ok items) ∧
    (∀ V e, feed s V ≠ .error e) := by
  have hinv : CallerRefsExist s :=
    reachableVia_induction _ CallerRefsExist callerRefsExist_seeded callerRefsExist_step s h
  have hauth := authorsExist_of_callerRefs s hinv
  have hok : ∀ V, ∃ items, feed s V = .ok items := by
    intro V
    obtain ⟨items, hfeed, _⟩ := feed_ok s V hauth
    exact ⟨items, hfeed⟩
  refine ⟨?_, ?_, hok, ?_⟩
  · intro p hp
    obtain ⟨u, hu⟩ := find?_id_some_of_mem s.users p.userId (hauth.1 p hp)
    rw [hu]
    rfl
  · intro c hc
    obtain ⟨u, hu⟩ := find?_id_some_of_mem s.users c.userId (hauth.2 c hc)
    rw [hu]
    rfl
  · intro V e he
    obtain ⟨items, hfeed⟩ := hok V
    rw [hfeed] at he
    cases he

theorem feed_never_fails_witness :
    ReachableVia (fun s r => Request.callerExists s r)
      (step (seeded env0) (.like 1 (some 5))) ∧
    ∃ items, feed (step (seeded env0) (.like 1 (some 5))) 3 = .ok items :=
  ⟨.call _ (.seed env0) (like_by_user1_allowed 5),
   (feed_never_fails _ (.call _ (.seed env0) (like_by_user1_allowed 5))).2.2.1 3⟩

end MiniInstagram
